import Mathlib

/-!
Verification development for the DarkRelay relay server core.

The Rust sources of the repository (darkrelayprotocol, darkrelayserver) are
shallowly embedded below: hash maps become association lists with first-match
lookup, hash sets become duplicate-free lists, `u64` counters become `Nat`,
`DateTime<Utc>` timestamps become `Int` (seconds), byte buffers become
`List Nat`, and fallible operations return `Except String`.  External
cryptographic primitives (Argon2id, X25519) are modelled as opaque injective
placeholders, as the specification treats them as assumed-available
primitives.  Each definition mirrors the source function of the same name.
-/

set_option linter.unusedVariables false
set_option linter.unusedSectionVars false

namespace DarkRelay

/-! ## Association-list model of HashMap

The Rust code stores its state in `HashMap`s.  We model a map as a list of
key/value pairs with first-match lookup.  `alistInsert` models
`HashMap::insert` (replacing any previous binding), `alistUpd` models
`get_mut` mutation of an existing binding, and `alistErase` models `remove`.
-/

def alistFind {κ ν : Type} [DecidableEq κ] : List (κ × ν) → κ → Option ν
  | [], _ => none
  | (k, v) :: t, a => if a = k then some v else alistFind t a

def alistErase {κ ν : Type} [DecidableEq κ] (a : κ) : List (κ × ν) → List (κ × ν)
  | [] => []
  | (k, v) :: t => if k = a then alistErase a t else (k, v) :: alistErase a t

def alistInsert {κ ν : Type} [DecidableEq κ] (a : κ) (b : ν) (l : List (κ × ν)) : List (κ × ν) :=
  (a, b) :: alistErase a l

def alistUpd {κ ν : Type} [DecidableEq κ] (a : κ) (f : ν → ν) : List (κ × ν) → List (κ × ν)
  | [] => []
  | (k, v) :: t => (if k = a then (k, f v) else (k, v)) :: alistUpd a f t

/-- Keep only the entries whose value satisfies `keep` (`HashMap::retain`
with a predicate on the value). -/
def filterVals {κ ν : Type} (keep : ν → Bool) : List (κ × ν) → List (κ × ν)
  | [] => []
  | (k, v) :: t => if keep v then (k, v) :: filterVals keep t else filterVals keep t

section AlistLemmas

variable {κ ν : Type} [DecidableEq κ]

@[simp] theorem alistFind_nil (a : κ) : alistFind ([] : List (κ × ν)) a = none := rfl

@[simp] theorem alistFind_cons (k : κ) (v : ν) (t : List (κ × ν)) (a : κ) :
    alistFind ((k, v) :: t) a = if a = k then some v else alistFind t a := rfl

theorem alistFind_erase_ne (a c : κ) (l : List (κ × ν)) (h : c ≠ a) :
    alistFind (alistErase a l) c = alistFind l c := by
  induction l with
  | nil => rfl
  | cons p t ih =>
    obtain ⟨k, v⟩ := p
    by_cases hk : k = a
    · rw [alistErase, if_pos hk, ih, alistFind_cons, if_neg (by rw [hk]; exact h)]
    · rw [alistErase, if_neg hk, alistFind_cons, alistFind_cons, ih]

@[simp] theorem alistFind_insert_self (a : κ) (b : ν) (l : List (κ × ν)) :
    alistFind (alistInsert a b l) a = some b := by
  simp [alistInsert, alistFind]

theorem alistFind_insert_ne (a c : κ) (b : ν) (l : List (κ × ν)) (h : c ≠ a) :
    alistFind (alistInsert a b l) c = alistFind l c := by
  rw [alistInsert, alistFind_cons, if_neg h]
  exact alistFind_erase_ne a c l h

theorem alistFind_upd_self (a : κ) (f : ν → ν) (l : List (κ × ν)) :
    alistFind (alistUpd a f l) a = (alistFind l a).map f := by
  induction l with
  | nil => rfl
  | cons p t ih =>
    obtain ⟨k, v⟩ := p
    by_cases hk : k = a
    · rw [alistUpd, if_pos hk, alistFind_cons, alistFind_cons, if_pos hk.symm,
        if_pos hk.symm]
      rfl
    · have h2 : ¬ a = k := fun h => hk h.symm
      rw [alistUpd, if_neg hk, alistFind_cons, alistFind_cons, if_neg h2, if_neg h2, ih]

theorem alistFind_upd_ne (a c : κ) (f : ν → ν) (l : List (κ × ν)) (h : c ≠ a) :
    alistFind (alistUpd a f l) c = alistFind l c := by
  induction l with
  | nil => rfl
  | cons p t ih =>
    obtain ⟨k, v⟩ := p
    by_cases hk : k = a
    · have h2 : ¬ c = k := by rw [hk]; exact h
      rw [alistUpd, if_pos hk, alistFind_cons, alistFind_cons, if_neg h2, if_neg h2, ih]
    · rw [alistUpd, if_neg hk, alistFind_cons, alistFind_cons, ih]

theorem mem_alistErase {a : κ} {l : List (κ × ν)} {p : κ × ν} :
    p ∈ alistErase a l → p ∈ l ∧ p.1 ≠ a := by
  induction l with
  | nil => intro h; cases h
  | cons q t ih =>
    obtain ⟨k, v⟩ := q
    by_cases hk : k = a
    · rw [alistErase, if_pos hk]
      intro h
      exact ⟨List.mem_cons_of_mem _ (ih h).1, (ih h).2⟩
    · rw [alistErase, if_neg hk]
      intro h
      rcases List.mem_cons.mp h with h | h
      · exact ⟨List.mem_cons.mpr (Or.inl h), by rw [h]; exact hk⟩
      · exact ⟨List.mem_cons_of_mem _ (ih h).1, (ih h).2⟩

theorem mem_alistInsert {a : κ} {b : ν} {l : List (κ × ν)} {p : κ × ν} :
    p ∈ alistInsert a b l → p = (a, b) ∨ (p ∈ l ∧ p.1 ≠ a) := by
  intro h
  rcases List.mem_cons.mp h with h | h
  · exact Or.inl h
  · exact Or.inr (mem_alistErase h)

theorem alistUpd_forall {a : κ} {f : ν → ν} {l : List (κ × ν)} {P : κ × ν → Prop}
    (h : ∀ p ∈ l, P p)
    (hf : ∀ k v, (k, v) ∈ l → k = a → P (k, v) → P (k, f v)) :
    ∀ p ∈ alistUpd a f l, P p := by
  induction l with
  | nil => intro p hp; cases hp
  | cons q t ih =>
    obtain ⟨k, v⟩ := q
    intro p hp
    rw [alistUpd] at hp
    rcases List.mem_cons.mp hp with hp | hp
    · by_cases hk : k = a
      · rw [if_pos hk] at hp
        rw [hp]
        exact hf k v (List.mem_cons_self _ _) hk (h _ (List.mem_cons_self _ _))
      · rw [if_neg hk] at hp
        rw [hp]
        exact h _ (List.mem_cons_self _ _)
    · exact ih (fun r hr => h r (List.mem_cons_of_mem _ hr))
        (fun k2 v2 hm he => hf k2 v2 (List.mem_cons_of_mem _ hm) he) p hp

theorem alistFind_mem {l : List (κ × ν)} {a : κ} {b : ν}
    (h : alistFind l a = some b) : (a, b) ∈ l := by
  induction l with
  | nil => simp [alistFind] at h
  | cons p t ih =>
    obtain ⟨k, v⟩ := p
    by_cases hk : a = k
    · rw [alistFind_cons, if_pos hk] at h
      rw [hk, ← Option.some_inj.mp h]
      exact List.mem_cons_self _ _
    · rw [alistFind_cons, if_neg hk] at h
      exact List.mem_cons_of_mem _ (ih h)

theorem alistFind_upd_isSome (a c : κ) (f : ν → ν) (l : List (κ × ν)) :
    (alistFind (alistUpd a f l) c).isSome = (alistFind l c).isSome := by
  by_cases h : c = a
  · subst h
    rw [alistFind_upd_self]
    cases alistFind l c <;> rfl
  · rw [alistFind_upd_ne a c f l h]

theorem alistFind_none_of_key_not_mem {l : List (κ × ν)} {a : κ}
    (h : a ∉ l.map Prod.fst) : alistFind l a = none := by
  induction l with
  | nil => rfl
  | cons p t ih =>
    simp only [List.map_cons, List.mem_cons, not_or] at h
    rw [alistFind_cons, if_neg h.1]
    exact ih h.2

theorem mem_filterVals {keep : ν → Bool} {l : List (κ × ν)} {p : κ × ν}
    (h : p ∈ filterVals keep l) : p ∈ l := by
  induction l with
  | nil => cases h
  | cons q t ih =>
    obtain ⟨k, v⟩ := q
    rw [filterVals] at h
    by_cases hkeep : keep v
    · rw [if_pos hkeep] at h
      rcases List.mem_cons.mp h with h | h
      · exact List.mem_cons.mpr (Or.inl h)
      · exact List.mem_cons_of_mem _ (ih h)
    · rw [if_neg hkeep] at h
      exact List.mem_cons_of_mem _ (ih h)

/-- With duplicate-free keys, looking a key up after `filterVals` yields the
original value filtered by the predicate (this is how `HashMap::retain`
interacts with `get`). -/
theorem alistFind_filterVals_of_nodup {l : List (κ × ν)} {a : κ} (keep : ν → Bool)
    (hnd : (l.map Prod.fst).Nodup) :
    alistFind (filterVals keep l) a =
      (alistFind l a).bind (fun v => if keep v then some v else none) := by
  induction l with
  | nil => rfl
  | cons p t ih =>
    obtain ⟨k, v⟩ := p
    simp only [List.map_cons, List.nodup_cons] at hnd
    by_cases hk : a = k
    · subst hk
      by_cases hkeep : keep v
      · rw [filterVals, if_pos hkeep, alistFind_cons, alistFind_cons, if_pos rfl,
          if_pos rfl, Option.some_bind, if_pos hkeep]
      · rw [filterVals, if_neg hkeep, alistFind_cons, if_pos rfl, Option.some_bind,
          if_neg hkeep]
        refine alistFind_none_of_key_not_mem (fun hmem => hnd.1 ?_)
        simp only [List.mem_map] at hmem ⊢
        obtain ⟨q, hq, hqa⟩ := hmem
        exact ⟨q, mem_filterVals hq, hqa⟩
    · by_cases hkeep : keep v
      · rw [filterVals, if_pos hkeep, alistFind_cons, alistFind_cons, if_neg hk,
          if_neg hk, ih hnd.2]
      · rw [filterVals, if_neg hkeep, alistFind_cons, if_neg hk, ih hnd.2]

end AlistLemmas

/-! ## Big-endian 32-bit length prefixes -/

/-- Big-endian byte decomposition of a `u32`, as produced by
`u32::to_be_bytes` and consumed by `read_u32`. -/
def toBE32 (n : Nat) : List Nat :=
  [n / 2 ^ 24 % 256, n / 2 ^ 16 % 256, n / 2 ^ 8 % 256, n % 256]

/-- Reassemble a `u32` from four big-endian bytes (`u32::from_be_bytes`). -/
def fromBE32 (b0 b1 b2 b3 : Nat) : Nat :=
  ((b0 * 256 + b1) * 256 + b2) * 256 + b3

theorem fromBE32_toBE32 (n : Nat) (h : n < 2 ^ 32) :
    fromBE32 (n / 2 ^ 24 % 256) (n / 2 ^ 16 % 256) (n / 2 ^ 8 % 256) (n % 256) = n := by
  simp only [fromBE32]
  omega

/-! ## Wire framing (darkrelayserver/src/handler.rs, read_frame)

The source reads a 4-byte big-endian length `L`, allocates a buffer of `L`
bytes, reads exactly `L` body bytes and hands the body to the bincode
decoder.  `read_frame_raw` embeds this framing layer over an incoming byte
stream: it returns the body handed to the decoder and the remaining stream,
or `none` when the stream ends prematurely (the transport error case).
There is no check on the value of `L` itself in the source.
-/

def read_frame_raw (input : List Nat) : Option (List Nat × List Nat) :=
  match input with
  | b0 :: b1 :: b2 :: b3 :: rest =>
    let len := fromBE32 b0 b1 b2 b3
    if rest.length < len then none
    else some (rest.take len, rest.drop len)
  | _ => none

/-! ## Padding scheme (darkrelayprotocol/src/crypto.rs) -/

/-- Embeds `add_padding`: format is length prefix, plaintext, padding.  The
random padding produced by `generate_padding` (0 to 256 random bytes) is
passed in explicitly as `padding`. -/
def add_padding (padding : List Nat) (plaintext : List Nat) : List Nat :=
  toBE32 plaintext.length ++ plaintext ++ padding

/-- Embeds `remove_padding`: requires at least 4 bytes, reads the big-endian
length prefix, checks the buffer is long enough and returns the plaintext
slice. -/
def remove_padding (padded : List Nat) : Except String (List Nat) :=
  match padded with
  | b0 :: b1 :: b2 :: b3 :: rest =>
    let plaintextLen := fromBE32 b0 b1 b2 b3
    if padded.length < 4 + plaintextLen then Except.error "invalid plaintext length"
    else Except.ok (rest.take plaintextLen)
  | _ => Except.error "padded data too short"

/-! ## Roles and permissions (darkrelayprotocol/src/permissions.rs) -/

inductive Role
  | user
  | moderator
  | admin
  | superAdmin
deriving DecidableEq

/-- Discriminant of the `repr(u8)` enum; the derived Rust `Ord` on `Role`
compares these discriminants. -/
def Role.rank : Role → Nat
  | .user => 0
  | .moderator => 1
  | .admin => 2
  | .superAdmin => 3

inductive Permission
  | sendMessage
  | deleteMessage
  | manageChannel
  | banUser
  | kickUser
  | muteUser
  | promoteUser
  | viewLogs
  | manageRoles
deriving DecidableEq

/-- Embeds `Role::default_permissions` (the hash set becomes a list in
insertion order). -/
def default_permissions : Role → List Permission
  | .user => [.sendMessage]
  | .moderator => [.sendMessage, .deleteMessage, .kickUser, .muteUser]
  | .admin => [.sendMessage, .deleteMessage, .kickUser, .muteUser,
               .manageChannel, .banUser, .promoteUser, .viewLogs]
  | .superAdmin => [.sendMessage, .deleteMessage, .manageChannel, .banUser,
                    .kickUser, .muteUser, .promoteUser, .viewLogs, .manageRoles]

/-- Embeds the free function `has_permission`. -/
def has_permission (role : Role) (permission : Permission) : Bool :=
  decide (permission ∈ default_permissions role)

/-! ## Channel types (darkrelayprotocol/src/channel.rs) -/

inductive ChannelType
  | publicCh
  | privateCh
  | adminOnly
  | readOnly
  | announcement
deriving DecidableEq

/-! ## Admin manager (darkrelayserver/src/admin.rs) -/

structure LogEntry where
  timestamp : Int
  userId : Nat
  username : String
  action : String
  target : String
  details : String
deriving DecidableEq

structure AdminManager where
  channelRoles : List (Nat × List (Nat × Role))
  channelTypes : List (Nat × ChannelType)
  logs : List (Nat × List LogEntry)
deriving DecidableEq

def AdminManager.new : AdminManager := ⟨[], [], []⟩

/-- Embeds `AdminManager::set_channel_creator`. -/
def set_channel_creator (am : AdminManager) (channelId userId : Nat) : AdminManager :=
  let roles := alistInsert userId Role.admin ((alistFind am.channelRoles channelId).getD [])
  { am with channelRoles := alistInsert channelId roles am.channelRoles }

/-- Embeds `AdminManager::get_role` (default `User` when absent). -/
def get_role (am : AdminManager) (channelId userId : Nat) : Role :=
  (((alistFind am.channelRoles channelId).bind
      (fun roles => alistFind roles userId)).getD Role.user)

/-- Embeds `AdminManager::set_role`. -/
def set_role (am : AdminManager) (channelId userId : Nat) (role : Role) : AdminManager :=
  let roles := alistInsert userId role ((alistFind am.channelRoles channelId).getD [])
  { am with channelRoles := alistInsert channelId roles am.channelRoles }

/-- Embeds `AdminManager::has_permission`. -/
def am_has_permission (am : AdminManager) (channelId userId : Nat)
    (permission : Permission) : Bool :=
  has_permission (get_role am channelId userId) permission

/-- Embeds `AdminManager::get_channel_type` (default `Public` when absent). -/
def get_channel_type (am : AdminManager) (channelId : Nat) : ChannelType :=
  (alistFind am.channelTypes channelId).getD ChannelType.publicCh

/-- Embeds `AdminManager::set_channel_type`. -/
def set_channel_type (am : AdminManager) (channelId : Nat) (ct : ChannelType) : AdminManager :=
  { am with channelTypes := alistInsert channelId ct am.channelTypes }

/-- Embeds `AdminManager::can_send_message`. -/
def can_send_message (am : AdminManager) (channelId userId : Nat) : Bool :=
  let role := get_role am channelId userId
  let channelType := get_channel_type am channelId
  match channelType with
  | .publicCh | .privateCh => has_permission role .sendMessage
  | .adminOnly | .readOnly => decide (Role.admin.rank ≤ role.rank)
  | .announcement => decide (Role.superAdmin.rank ≤ role.rank)

/-- Embeds `AdminManager::log_action` (ring cap 1000, front drop). -/
def log_action (am : AdminManager) (channelId userId : Nat)
    (username action target details : String) (now : Int) : AdminManager :=
  let entry : LogEntry := ⟨now, userId, username, action, target, details⟩
  let l := ((alistFind am.logs channelId).getD []) ++ [entry]
  let l := if l.length > 1000 then l.drop (l.length - 1000) else l
  { am with logs := alistInsert channelId l am.logs }

/-- Embeds `AdminManager::get_logs`. -/
def get_logs (am : AdminManager) (channelId : Nat) (limit : Nat) : List LogEntry :=
  ((alistFind am.logs channelId).getD []).reverse.take limit

/-- Embeds `AdminManager::remove_channel`. -/
def am_remove_channel (am : AdminManager) (channelId : Nat) : AdminManager :=
  { channelRoles := alistErase channelId am.channelRoles,
    channelTypes := alistErase channelId am.channelTypes,
    logs := alistErase channelId am.logs }

/-! ## Ban manager (darkrelayserver/src/ban_manager.rs) -/

structure Ban where
  userId : Nat
  username : String
  bannedUntil : Option Int
  bannedBy : String
  reason : Option String
deriving DecidableEq

structure BanManager where
  bans : List (Nat × List (Nat × Ban))
deriving DecidableEq

def BanManager.new : BanManager := ⟨[]⟩

/-- Embeds `BanManager::ban_user` (`banned_until` is `now + duration`; the
new ban record replaces any previous one).  Returns the pair carried by the
source return value and the updated manager. -/
def ban_user (bm : BanManager) (channelId userId : Nat) (username bannedBy : String)
    (durationSeconds : Option Nat) (reason : Option String) (now : Int) :
    Option Int × BanManager :=
  let bannedUntil := durationSeconds.map (fun secs => now + (secs : Int))
  let ban : Ban := ⟨userId, username, bannedUntil, bannedBy, reason⟩
  let channelBans := alistInsert userId ban ((alistFind bm.bans channelId).getD [])
  (bannedUntil, ⟨alistInsert channelId channelBans bm.bans⟩)

/-- Embeds `BanManager::unban_user`; returns whether a record was removed. -/
def unban_user (bm : BanManager) (channelId userId : Nat) : Bool × BanManager :=
  match alistFind bm.bans channelId with
  | none => (false, bm)
  | some channelBans =>
    let removed := (alistFind channelBans userId).isSome
    (removed, ⟨alistUpd channelId (fun cb => alistErase userId cb) bm.bans⟩)

/-- Embeds `BanManager::is_banned`: a ban is in effect when a record exists
and it is permanent or its expiry is strictly in the future. -/
def is_banned (bm : BanManager) (channelId userId : Nat) (now : Int) : Bool :=
  match alistFind bm.bans channelId with
  | none => false
  | some channelBans =>
    match alistFind channelBans userId with
    | none => false
    | some ban =>
      match ban.bannedUntil with
      | some u => decide (now < u)
      | none => true

/-- Embeds `BanManager::get_ban_info`. -/
def get_ban_info (bm : BanManager) (channelId userId : Nat) : Option Ban :=
  (alistFind bm.bans channelId).bind (fun cb => alistFind cb userId)

/-- Embeds `BanManager::cleanup_expired` (retain bans that are permanent or
expire strictly after the cleanup instant). -/
def cleanup_expired (bm : BanManager) (now : Int) : BanManager :=
  ⟨bm.bans.map (fun p =>
     (p.1, filterVals (fun b =>
        match b.bannedUntil with
        | some u => decide (now < u)
        | none => true) p.2))⟩

theorem alistFind_mapVals {κ ν μ : Type} [DecidableEq κ] (g : ν → μ) (l : List (κ × ν)) (a : κ) :
    alistFind (l.map (fun p => (p.1, g p.2))) a = (alistFind l a).map g := by
  induction l with
  | nil => rfl
  | cons p t ih =>
    obtain ⟨k, v⟩ := p
    by_cases hk : a = k
    · simp [alistFind, hk]
    · simp [alistFind, hk, ih]

/-! ## Theorems for the framing and padding claims -/

/-- General success behaviour of the framing layer: any frame consisting of
a 4-byte big-endian length `n` followed by exactly `n` body bytes is
accepted, whatever the value of `n`. -/
theorem read_frame_raw_success (n : Nat) (body rest : List Nat)
    (hlen : body.length = n) (h : n < 2 ^ 32) :
    read_frame_raw (toBE32 n ++ body ++ rest) = some (body, rest) := by
  have hbe : fromBE32 (n / 2 ^ 24 % 256) (n / 2 ^ 16 % 256) (n / 2 ^ 8 % 256) (n % 256) = n :=
    fromBE32_toBE32 n h
  simp only [toBE32, List.cons_append, List.nil_append, read_frame_raw, hbe]
  rw [if_neg (by simp [List.length_append, hlen])]
  rw [← hlen, List.take_left, List.drop_left]

/-- Variant of the success lemma for a stream holding exactly one frame. -/
theorem read_frame_raw_success_whole (n : Nat) (body : List Nat)
    (hlen : body.length = n) (h : n < 2 ^ 32) :
    read_frame_raw (toBE32 n ++ body) = some (body, []) := by
  have hr := read_frame_raw_success n body [] hlen h
  rwa [List.append_nil] at hr

/-- Claim C9 (corrected): the frame reader performs no validation of the
length prefix.  A frame whose length prefix exceeds 16 MiB is accepted
whole (here a frame of 2 ^ 24 + 1 = 16 MiB + 1 bytes), contradicting the
claim that such frames are refused. -/
theorem c9_counterexample :
    read_frame_raw (toBE32 (2 ^ 24 + 1) ++ List.replicate (2 ^ 24 + 1) 55) =
      some (List.replicate (2 ^ 24 + 1) 55, []) ∧
    16 * 1024 * 1024 < 2 ^ 24 + 1 :=
  ⟨read_frame_raw_success_whole (2 ^ 24 + 1) (List.replicate (2 ^ 24 + 1) 55)
     (List.length_replicate _ _) (by norm_num),
   by norm_num⟩

/-- Claim C9 (amended): the frame reader reads a 4-byte big-endian length
`L` and then exactly `L` body bytes, handing the body to the decoder; it
rejects nothing based on `L`.  In particular an `L = 0` frame is accepted
at the framing layer with an empty body (only the subsequent bincode decode
of the empty buffer fails), and every length up to `2 ^ 32 - 1` is accepted
with no 16 MiB cap. -/
theorem c9_read_frame_no_validation :
    read_frame_raw (toBE32 0) = some ([], []) ∧
    ∀ (n : Nat) (body rest : List Nat), body.length = n → n < 2 ^ 32 →
      read_frame_raw (toBE32 n ++ body ++ rest) = some (body, rest) := by
  constructor
  · rfl
  · exact read_frame_raw_success

/-- Witness for C9 (amended) at a concrete frame. -/
theorem c9_read_frame_no_validation_witness :
    read_frame_raw (toBE32 5 ++ [1, 2, 3, 4, 5] ++ [7]) = some ([1, 2, 3, 4, 5], [7]) :=
  c9_read_frame_no_validation.2 5 [1, 2, 3, 4, 5] [7] (by decide) (by norm_num)

/-- Claim C10 (confirmed): for every plaintext of length below `2 ^ 32` and
every padding the generator may produce (indeed, any padding at all),
`remove_padding` recovers exactly the plaintext from `add_padding`. -/
theorem c10_padding_roundtrip (plaintext padding : List Nat)
    (h : plaintext.length < 2 ^ 32) :
    remove_padding (add_padding padding plaintext) = Except.ok plaintext := by
  have hbe : fromBE32 (plaintext.length / 2 ^ 24 % 256) (plaintext.length / 2 ^ 16 % 256)
      (plaintext.length / 2 ^ 8 % 256) (plaintext.length % 256) = plaintext.length :=
    fromBE32_toBE32 plaintext.length h
  simp only [add_padding, toBE32, List.cons_append, List.nil_append, remove_padding, hbe]
  rw [if_neg (by simp only [List.length_cons, List.length_append]; omega)]
  rw [List.take_left]

/-- Witness for C10 at a concrete plaintext and padding. -/
theorem c10_padding_roundtrip_witness :
    remove_padding (add_padding [9, 9] [1, 2, 3]) = Except.ok [1, 2, 3] :=
  c10_padding_roundtrip [1, 2, 3] [9, 9] (by norm_num)

/-! ## Theorem for the send-permission claim -/

/-- Claim C3 (confirmed): `can_send_message` returns true exactly when the
channel type is Public or Private and the role holds `SendMessage`, or the
type is AdminOnly or ReadOnly and the role is at least Admin, or the type
is Announcement and the role is at least SuperAdmin (role order modelled by
the `repr(u8)` discriminant `Role.rank`, matching the derived Rust `Ord`). -/
theorem c3_can_send_message_spec (am : AdminManager) (channelId userId : Nat) :
    can_send_message am channelId userId = true ↔
      (((get_channel_type am channelId = ChannelType.publicCh ∨
         get_channel_type am channelId = ChannelType.privateCh) ∧
        has_permission (get_role am channelId userId) Permission.sendMessage = true) ∨
       ((get_channel_type am channelId = ChannelType.adminOnly ∨
         get_channel_type am channelId = ChannelType.readOnly) ∧
        Role.admin.rank ≤ (get_role am channelId userId).rank) ∨
       (get_channel_type am channelId = ChannelType.announcement ∧
        Role.superAdmin.rank ≤ (get_role am channelId userId).rank)) := by
  cases hct : get_channel_type am channelId <;>
    simp [can_send_message, hct]

/-! ## Theorems for the ban claims -/

/-- Well-formedness carried by every state the Rust `HashMap` can be in:
the per-channel ban tables have duplicate-free keys. -/
def banWF (bm : BanManager) : Prop :=
  ∀ p ∈ bm.bans, (p.2.map Prod.fst).Nodup

instance (bm : BanManager) : Decidable (banWF bm) := by
  unfold banWF
  infer_instance

/-- Claim C6 (confirmed): `is_banned` is true exactly when a ban record for
the (channel, user) pair exists and either has no expiry or expires
strictly in the future; and running the periodic cleanup (at any earlier or
equal instant) never changes its verdict. -/
theorem c6_is_banned_spec (bm : BanManager) (channelId userId : Nat) (now : Int) :
    (is_banned bm channelId userId now = true ↔
      ∃ b, get_ban_info bm channelId userId = some b ∧
        (b.bannedUntil = none ∨ ∃ u, b.bannedUntil = some u ∧ now < u)) ∧
    (∀ tc : Int, tc ≤ now → banWF bm →
      is_banned (cleanup_expired bm tc) channelId userId now =
        is_banned bm channelId userId now) := by
  constructor
  · unfold is_banned get_ban_info
    cases hch : alistFind bm.bans channelId with
    | none => simp
    | some cb =>
      simp only [Option.some_bind]
      cases hu : alistFind cb userId with
      | none => simp [hu]
      | some ban =>
        simp only [hu]
        cases hbu : ban.bannedUntil with
        | none => simp [hbu]
        | some u => simp [hbu]
  · intro tc htc hwf
    unfold is_banned cleanup_expired
    simp only
    rw [alistFind_mapVals]
    cases hch : alistFind bm.bans channelId with
    | none => rfl
    | some cb =>
      have hnd : (cb.map Prod.fst).Nodup := hwf (channelId, cb) (alistFind_mem hch)
      simp only [Option.map_some']
      rw [alistFind_filterVals_of_nodup _ hnd]
      cases hu : alistFind cb userId with
      | none => rfl
      | some ban =>
        simp only [Option.some_bind]
        cases hbu : ban.bannedUntil with
        | none => simp [hbu]
        | some u =>
          simp only [hbu]
          by_cases hk : tc < u
          · simp [hk, hbu]
          · have h1 : ¬ now < u := by omega
            simp [hk, hbu, h1]

/-- Witness for C6 at a concrete ban store, time and cleanup instant. -/
theorem c6_is_banned_spec_witness :
    (is_banned (ban_user BanManager.new 1 2 "bob" "alice" (some 10) none 0).2 1 2 5 = true ↔
      ∃ b, get_ban_info (ban_user BanManager.new 1 2 "bob" "alice" (some 10) none 0).2 1 2 = some b ∧
        (b.bannedUntil = none ∨ ∃ u, b.bannedUntil = some u ∧ (5 : Int) < u)) ∧
    is_banned (cleanup_expired (ban_user BanManager.new 1 2 "bob" "alice" (some 10) none 0).2 3) 1 2 5 =
      is_banned (ban_user BanManager.new 1 2 "bob" "alice" (some 10) none 0).2 1 2 5 :=
  ⟨(c6_is_banned_spec _ 1 2 5).1,
   (c6_is_banned_spec _ 1 2 5).2 3 (by norm_num) (by decide)⟩

/-! ## Protocol data (darkrelayprotocol/src/protocol.rs) -/

structure UserInfo where
  id : Nat
  username : String
  joinedAt : Int
deriving DecidableEq

structure ChannelInfo where
  id : Nat
  name : String
  isPublic : Bool
  channelType : ChannelType
  userRole : Option Role
deriving DecidableEq

structure ChatMessage where
  id : Nat
  userId : Nat
  username : String
  content : List Nat
  timestamp : Int
  nonce : Option (List Nat)
  metadata : List (String × String)
deriving DecidableEq

/-! ## Channel manager (darkrelayserver/src/channel.rs) -/

structure Channel where
  id : Nat
  name : String
  isPublic : Bool
  passwordHash : Option String
  messages : List ChatMessage
  members : List Nat
deriving DecidableEq

/-- Modelled from the spec: Argon2id password hashing (with a random salt)
is an external primitive of the `argon2` crate; the model is an injective
placeholder so that `verify_password` accepts exactly the hashed
password. -/
def hash_password (password : String) : String :=
  "argon2id:" ++ password

/-- Modelled from the spec: Argon2id verification, the inverse check of
`hash_password`. -/
def verify_password (password hash : String) : Bool :=
  hash == "argon2id:" ++ password

/-- Modelled from the spec: `Channel::info` of the authoritative draft is
not in the source tree (the present draft predates `channel_type` and
`user_role` in `ChannelInfo`); the default channel type is Public and the
base info carries no role (the join handler rebuilds both fields). -/
def Channel.info (c : Channel) : ChannelInfo :=
  ⟨c.id, c.name, c.isPublic, ChannelType.publicCh, none⟩

structure ChannelManager where
  channelsByName : List (String × Channel)
  nextChannelId : Nat
  nextMessageId : Nat
deriving DecidableEq

def ChannelManager.new : ChannelManager := ⟨[], 1, 1⟩

/-- Embeds `ChannelManager::ensure_channel`: no-op when the channel exists;
otherwise a non-empty password forces a private channel storing the Argon2id
hash, and any other password value leaves the caller-supplied public flag
and stores no hash. -/
def ensure_channel (cm : ChannelManager) (name : String) (isPublic : Bool)
    (password : Option String) : ChannelManager :=
  if (alistFind cm.channelsByName name).isSome then cm
  else
    let flagAndHash :=
      match password with
      | some pw => if pw ≠ "" then (false, some (hash_password pw)) else (isPublic, none)
      | none => (isPublic, none)
    let channel : Channel :=
      ⟨cm.nextChannelId, name, flagAndHash.1, flagAndHash.2, [], []⟩
    { channelsByName := alistInsert name channel cm.channelsByName,
      nextChannelId := cm.nextChannelId + 1,
      nextMessageId := cm.nextMessageId }

/-- Modelled from the spec: `ChannelManager::get_channel_id` is called by
handler.rs but absent from the source tree (a superseded draft of
channel.rs is present instead); channels are keyed by unique name and carry
a channel id. -/
def get_channel_id (cm : ChannelManager) (name : String) : Option Nat :=
  (alistFind cm.channelsByName name).map Channel.id

/-- Modelled from the spec: the authoritative `ensure_channel` returns the
assigned channel id to callers that need it (creator seeding); creation
itself is the present draft's `ensure_channel`. -/
def ensure_channel_ret (cm : ChannelManager) (name : String) (isPublic : Bool)
    (password : Option String) : Nat × ChannelManager :=
  match alistFind cm.channelsByName name with
  | some ch => (ch.id, cm)
  | none => (cm.nextChannelId, ensure_channel cm name isPublic password)

/-- Embeds `HashSet::insert` on the member set. -/
def memberInsert (clientId : Nat) (s : List Nat) : List Nat :=
  if clientId ∈ s then s else clientId :: s

/-- Embeds `ChannelManager::list_public` (public channels sorted by name). -/
def list_public (cm : ChannelManager) : List ChannelInfo :=
  (((cm.channelsByName.map Prod.snd).filter (fun c => c.isPublic)).map
    Channel.info).mergeSort (fun a b => decide (a.name ≤ b.name))

/-- Embeds `ChannelManager::join`: auto-creates an absent channel (public
exactly when no password was supplied), verifies a stored password hash,
then inserts the connection into the member set. -/
def joinCh (cm : ChannelManager) (clientId : Nat) (name : String)
    (password : Option String) : Except String ChannelInfo × ChannelManager :=
  let cm :=
    if (alistFind cm.channelsByName name).isSome then cm
    else ensure_channel cm name password.isNone password
  match alistFind cm.channelsByName name with
  | none => (Except.error "channel not found", cm)
  | some ch =>
    let pwOk :=
      match ch.passwordHash with
      | some hash => verify_password (password.getD "") hash
      | none => true
    if pwOk then
      let byName :=
        alistUpd name (fun c => { c with members := memberInsert clientId c.members })
          cm.channelsByName
      (Except.ok ch.info, { cm with channelsByName := byName })
    else (Except.error "invalid channel password", cm)

/-- Embeds `ChannelManager::leave` (removal from the member set, no error
when absent). -/
def leaveCh (cm : ChannelManager) (clientId : Nat) (name : String) : ChannelManager :=
  let byName :=
    alistUpd name (fun c => { c with members := c.members.filter (fun x => decide (x ≠ clientId)) })
      cm.channelsByName
  { cm with channelsByName := byName }

/-- Embeds `ChannelManager::members` (a snapshot of the member set). -/
def membersOf (cm : ChannelManager) (name : String) : List Nat :=
  ((alistFind cm.channelsByName name).map Channel.members).getD []

/-- Embeds `ChannelManager::add_message`: stamps the next message id and
the server timestamp (ignoring the client-supplied values), appends, and
enforces the ring cap of 100 by draining from the front. -/
def add_message (cm : ChannelManager) (channel : String) (message : ChatMessage)
    (now : Int) : Except String ChatMessage × ChannelManager :=
  match alistFind cm.channelsByName channel with
  | none => (Except.error "channel not found", cm)
  | some _ =>
    let stored := { message with id := cm.nextMessageId, timestamp := now }
    let byName :=
      alistUpd channel (fun c =>
        let msgs := c.messages ++ [stored]
        let capped := if msgs.length > 100 then msgs.drop (msgs.length - 100) else msgs
        { c with messages := capped }) cm.channelsByName
    let cm2 : ChannelManager :=
      { cm with nextMessageId := cm.nextMessageId + 1, channelsByName := byName }
    (Except.ok stored, cm2)

/-- Embeds `ChannelManager::history` (oldest-first slice of the last
`limit` messages). -/
def history (cm : ChannelManager) (channel : String) (limit : Nat) : List ChatMessage :=
  match alistFind cm.channelsByName channel with
  | none => []
  | some ch => (ch.messages.reverse.take limit).reverse

/-- Modelled from the spec: `ChannelManager::delete_message(name, id)`,
called by handler.rs but absent from the source tree; it removes the
message with the given id from the store and reports whether one was
found. -/
def delete_message (cm : ChannelManager) (channel : String) (messageId : Nat) :
    Bool × ChannelManager :=
  match alistFind cm.channelsByName channel with
  | none => (false, cm)
  | some ch =>
    let byName :=
      alistUpd channel (fun c =>
        { c with messages := c.messages.filter (fun m => decide (m.id ≠ messageId)) })
        cm.channelsByName
    (ch.messages.any (fun m => m.id == messageId), { cm with channelsByName := byName })

/-- Modelled from the spec: `ChannelManager::delete_channel(name)`, called
by handler.rs but absent from the source tree; it drops the channel entry
from the store. -/
def delete_channel (cm : ChannelManager) (channel : String) : ChannelManager :=
  { cm with channelsByName := alistErase channel cm.channelsByName }

/-! ## Theorems for the channel-creation claim (C4) -/

/-- Claim C4 (corrected): at JoinChannel auto-creation the handler passes
`is_public := password.is_none()`.  With the empty-string password the
channel is created private (is_public = false) with no stored hash,
contradicting the claim that it is public. -/
theorem c4_counterexample :
    ¬ ((alistFind (ensure_channel ChannelManager.new "c" (Option.isNone (some ""))
          (some "")).channelsByName "c").map Channel.isPublic = some true) := by
  decide

/-- Claim C4 (amended): when JoinChannel auto-creation runs `ensure_channel`
for an absent channel with `is_public = password.is_none()`: a present
non-empty password yields a private channel storing the Argon2id hash of
the password; no password yields a public channel with no hash; a present
but empty password yields a private channel (is_public = false) with no
hash. -/
theorem c4_ensure_channel_create (cm : ChannelManager) (name : String)
    (password : Option String) (habs : alistFind cm.channelsByName name = none) :
    ((alistFind (ensure_channel cm name password.isNone password).channelsByName name).map
        Channel.isPublic,
     (alistFind (ensure_channel cm name password.isNone password).channelsByName name).map
        Channel.passwordHash) =
      match password with
      | none => (some true, some none)
      | some pw =>
        if pw = "" then (some false, some none)
        else (some false, some (some (hash_password pw))) := by
  simp only [ensure_channel, habs, Option.isSome_none, Bool.false_eq_true, if_false]
  cases password with
  | none => simp
  | some pw =>
    by_cases hpw : pw = ""
    · subst hpw
      simp
    · simp [hpw]

/-- Witness for C4 (amended) at a concrete absent channel with a non-empty
password. -/
theorem c4_ensure_channel_create_witness :
    ((alistFind (ensure_channel ChannelManager.new "secret"
        (Option.isNone (some "hunter2")) (some "hunter2")).channelsByName "secret").map
        Channel.isPublic,
     (alistFind (ensure_channel ChannelManager.new "secret"
        (Option.isNone (some "hunter2")) (some "hunter2")).channelsByName "secret").map
        Channel.passwordHash) =
      (some false, some (some (hash_password "hunter2"))) := by
  have h := c4_ensure_channel_create ChannelManager.new "secret" (some "hunter2") rfl
  simpa using h

/-! ## Theorems for the message-history invariant (C7) -/

/-- Per-channel part of the history invariant: ring cap 100, strictly
increasing message ids, all ids below the manager counter `n`. -/
def entryInv (n : Nat) (p : String × Channel) : Prop :=
  p.2.messages.length ≤ 100 ∧
  p.2.messages.Pairwise (fun a b => a.id < b.id) ∧
  ∀ m ∈ p.2.messages, m.id < n

/-- The history invariant of a channel manager state. -/
def cmInv (cm : ChannelManager) : Prop :=
  ∀ p ∈ cm.channelsByName, entryInv cm.nextMessageId p

theorem cmInv_def (cm : ChannelManager) :
    cmInv cm ↔ ∀ p ∈ cm.channelsByName, entryInv cm.nextMessageId p := Iff.rfl

theorem entryInv_mono {n n2 : Nat} {p : String × Channel} (h : entryInv n p)
    (hle : n ≤ n2) : entryInv n2 p :=
  ⟨h.1, h.2.1, fun m hm => lt_of_lt_of_le (h.2.2 m hm) hle⟩

/-- Entry transformations that keep the message list intact preserve the
per-entry invariant. -/
theorem entryInv_members {n : Nat} {k : String} {v : Channel}
    (g : List Nat → List Nat) (h : entryInv n (k, v)) :
    entryInv n (k, { v with members := g v.members }) := h

theorem cmInv_ensure (cm : ChannelManager) (name : String) (isPublic : Bool)
    (password : Option String) (h : cmInv cm) :
    cmInv (ensure_channel cm name isPublic password) := by
  unfold ensure_channel
  by_cases hex : (alistFind cm.channelsByName name).isSome
  · rw [if_pos hex]
    exact h
  · rw [if_neg hex]
    intro p hp
    rcases mem_alistInsert hp with hp | hp
    · rw [hp]
      exact ⟨by simp, by simp, by simp⟩
    · exact h p hp.1

theorem cmInv_upd_members (cm : ChannelManager) (name : String)
    (g : List Nat → List Nat) (h : cmInv cm) :
    cmInv { cm with channelsByName := alistUpd name (fun c => { c with members := g c.members }) cm.channelsByName } := by
  intro p hp
  refine alistUpd_forall (P := entryInv cm.nextMessageId) h ?_ p hp
  intro k v hm he hv
  exact entryInv_members g hv

theorem cmInv_join (cm : ChannelManager) (clientId : Nat) (name : String)
    (password : Option String) (h : cmInv cm) :
    cmInv (joinCh cm clientId name password).2 := by
  unfold joinCh
  have h2 : cmInv (if (alistFind cm.channelsByName name).isSome then cm
      else ensure_channel cm name password.isNone password) := by
    by_cases hex : (alistFind cm.channelsByName name).isSome
    · rw [if_pos hex]; exact h
    · rw [if_neg hex]; exact cmInv_ensure cm name password.isNone password h
  set cm2 := if (alistFind cm.channelsByName name).isSome then cm
      else ensure_channel cm name password.isNone password with hcm2
  dsimp only
  split
  · exact h2
  · split
    · exact cmInv_upd_members cm2 name (memberInsert clientId) h2
    · exact h2

theorem cmInv_leave (cm : ChannelManager) (clientId : Nat) (name : String)
    (h : cmInv cm) : cmInv (leaveCh cm clientId name) :=
  cmInv_upd_members cm name (fun s => s.filter (fun x => decide (x ≠ clientId))) h

theorem cmInv_add_message (cm : ChannelManager) (channel : String)
    (message : ChatMessage) (now : Int) (h : cmInv cm) :
    cmInv (add_message cm channel message now).2 := by
  unfold add_message
  cases hch : alistFind cm.channelsByName channel with
  | none => exact h
  | some ch0 =>
    simp only
    intro p hp
    refine alistUpd_forall (P := entryInv (cm.nextMessageId + 1))
      (fun q hq => entryInv_mono (h q hq) (Nat.le_succ _)) ?_ p hp
    intro k v hm he hv
    have hold : entryInv cm.nextMessageId (k, v) := h (k, v) hm
    set stored : ChatMessage := { message with id := cm.nextMessageId, timestamp := now }
      with hst
    set msgs := v.messages ++ [stored] with hmsgs
    have hpair : msgs.Pairwise (fun a b => a.id < b.id) := by
      rw [hmsgs, List.pairwise_append]
      refine ⟨hold.2.1, List.pairwise_singleton _ _, ?_⟩
      intro a ha b hb
      rw [List.mem_singleton.mp hb]
      exact hold.2.2 a ha
    have hmem : ∀ m ∈ msgs, m.id < cm.nextMessageId + 1 := by
      intro m hmm
      rw [hmsgs] at hmm
      rcases List.mem_append.mp hmm with hmm | hmm
      · exact Nat.lt_succ_of_lt (hold.2.2 m hmm)
      · rw [List.mem_singleton.mp hmm]
        exact Nat.lt_succ_self _
    have hlen : msgs.length = v.messages.length + 1 := by
      rw [hmsgs, List.length_append, List.length_singleton]
    by_cases hcap : msgs.length > 100
    · have hdropsub : (msgs.drop (msgs.length - 100)).Sublist msgs := List.drop_sublist _ _
      refine ⟨?_, ?_, ?_⟩
      · show (if msgs.length > 100 then msgs.drop (msgs.length - 100) else msgs).length ≤ 100
        rw [if_pos hcap, List.length_drop]
        omega
      · show (if msgs.length > 100 then msgs.drop (msgs.length - 100) else msgs).Pairwise _
        rw [if_pos hcap]
        exact hpair.sublist hdropsub
      · show ∀ m ∈ (if msgs.length > 100 then msgs.drop (msgs.length - 100) else msgs),
          m.id < cm.nextMessageId + 1
        rw [if_pos hcap]
        intro m hmm
        exact hmem m (hdropsub.subset hmm)
    · refine ⟨?_, ?_, ?_⟩
      · show (if msgs.length > 100 then msgs.drop (msgs.length - 100) else msgs).length ≤ 100
        rw [if_neg hcap]
        omega
      · show (if msgs.length > 100 then msgs.drop (msgs.length - 100) else msgs).Pairwise _
        rw [if_neg hcap]
        exact hpair
      · show ∀ m ∈ (if msgs.length > 100 then msgs.drop (msgs.length - 100) else msgs),
          m.id < cm.nextMessageId + 1
        rw [if_neg hcap]
        exact hmem

theorem cmInv_delete_message (cm : ChannelManager) (channel : String)
    (messageId : Nat) (h : cmInv cm) : cmInv (delete_message cm channel messageId).2 := by
  unfold delete_message
  cases hch : alistFind cm.channelsByName channel with
  | none => exact h
  | some ch0 =>
    simp only
    intro p hp
    refine alistUpd_forall (P := entryInv cm.nextMessageId) h ?_ p hp
    intro k v hm he hv
    have hsub : (v.messages.filter (fun m => decide (m.id ≠ messageId))).Sublist v.messages :=
      List.filter_sublist _
    exact ⟨le_trans hsub.length_le hv.1, hv.2.1.sublist hsub,
      fun m hmm => hv.2.2 m (hsub.subset hmm)⟩

theorem cmInv_delete_channel (cm : ChannelManager) (channel : String)
    (h : cmInv cm) : cmInv (delete_channel cm channel) := by
  intro p hp
  exact h p (mem_alistErase hp).1

/-- Reachable channel-manager states: every sequence of operations of the
channel engine starting from the fresh manager. -/
inductive ReachCM : ChannelManager → Prop
  | base : ReachCM ChannelManager.new
  | ensureStep (cm : ChannelManager) (name : String) (isPublic : Bool)
      (password : Option String) : ReachCM cm →
      ReachCM (ensure_channel cm name isPublic password)
  | joinStep (cm : ChannelManager) (clientId : Nat) (name : String)
      (password : Option String) : ReachCM cm → ReachCM (joinCh cm clientId name password).2
  | leaveStep (cm : ChannelManager) (clientId : Nat) (name : String) :
      ReachCM cm → ReachCM (leaveCh cm clientId name)
  | addMessageStep (cm : ChannelManager) (channel : String) (message : ChatMessage)
      (now : Int) : ReachCM cm → ReachCM (add_message cm channel message now).2
  | deleteMessageStep (cm : ChannelManager) (channel : String) (messageId : Nat) :
      ReachCM cm → ReachCM (delete_message cm channel messageId).2
  | deleteChannelStep (cm : ChannelManager) (channel : String) :
      ReachCM cm → ReachCM (delete_channel cm channel)

/-- Claim C7 (confirmed): after every sequence of channel-manager
operations each channel stores at most 100 messages in strictly increasing
id order, and `add_message` assigns the stored id from the manager counter,
ignoring the client-supplied id. -/
theorem c7_messages_invariant (cm : ChannelManager) (h : ReachCM cm) :
    cmInv cm ∧
    ∀ (channel : String) (message : ChatMessage) (now : Int) (stored : ChatMessage),
      (add_message cm channel message now).1 = Except.ok stored →
      stored.id = cm.nextMessageId := by
  constructor
  · induction h with
    | base => intro p hp; cases hp
    | ensureStep cm name isPublic password hr ih => exact cmInv_ensure cm name isPublic password ih
    | joinStep cm clientId name password hr ih => exact cmInv_join cm clientId name password ih
    | leaveStep cm clientId name hr ih => exact cmInv_leave cm clientId name ih
    | addMessageStep cm channel message now hr ih => exact cmInv_add_message cm channel message now ih
    | deleteMessageStep cm channel messageId hr ih => exact cmInv_delete_message cm channel messageId ih
    | deleteChannelStep cm channel hr ih => exact cmInv_delete_channel cm channel ih
  · intro channel message now stored hok
    unfold add_message at hok
    cases hch : alistFind cm.channelsByName channel with
    | none => rw [hch] at hok; cases hok
    | some ch0 =>
      rw [hch] at hok
      simp only [Except.ok.injEq] at hok
      rw [← hok]

/-- Witness for C7 at a concrete reachable manager and a concrete
`add_message` call whose client-supplied id 99 is replaced by 1. -/
theorem c7_messages_invariant_witness :
    cmInv (ensure_channel ChannelManager.new "general" true none) ∧
    (⟨1, 7, "alice", [104], 5, none, []⟩ : ChatMessage).id =
      (ensure_channel ChannelManager.new "general" true none).nextMessageId := by
  have h := c7_messages_invariant (ensure_channel ChannelManager.new "general" true none)
    (ReachCM.ensureStep ChannelManager.new "general" true none ReachCM.base)
  exact ⟨h.1, h.2 "general" ⟨99, 7, "alice", [104], 0, none, []⟩ 5
    ⟨1, 7, "alice", [104], 5, none, []⟩ rfl⟩

/-! ## Auth service (darkrelayserver/src/auth.rs) -/

structure UserRecord where
  user : UserInfo
  password : String
deriving DecidableEq

structure AuthService where
  usersByName : List (String × UserRecord)
  nextUserId : Nat
deriving DecidableEq

def AuthService.new : AuthService := ⟨[], 1⟩

/-- Embeds `AuthService::verify_special_key` (byte-wise equality). -/
def verify_special_key (expected candidate : String) : Bool :=
  expected == candidate

/-- Embeds `str::trim` (whitespace trimming at both ends of the string),
defined over the character list so that it evaluates by reduction. -/
def strTrim (s : String) : String :=
  String.mk (((s.data.dropWhile Char.isWhitespace).reverse.dropWhile Char.isWhitespace).reverse)

/-- Embeds `AuthService::register`.  The current Unix-epoch nanoseconds and
the `Utc::now` joined-at instant are environment inputs passed explicitly
as `nanos` and `now`. -/
def register (svc : AuthService) (username : String) (nanos : Nat) (now : Int) :
    Except String (UserInfo × String) × AuthService :=
  let username := strTrim username
  if username = "" then (Except.error "username cannot be empty", svc)
  else if (alistFind svc.usersByName username).isSome then
    (Except.error "username already exists", svc)
  else
    let userId := svc.nextUserId
    let user : UserInfo := ⟨userId, username, now⟩
    let password := "dr-" ++ toString nanos ++ "-" ++ toString userId
    (Except.ok (user, password),
     ⟨alistInsert username ⟨user, password⟩ svc.usersByName, svc.nextUserId + 1⟩)

/-- Embeds `AuthService::login`. -/
def login (svc : AuthService) (username password : String) : Except String UserInfo :=
  match alistFind svc.usersByName username with
  | none => Except.error "user not found"
  | some r => if r.password ≠ password then Except.error "invalid password" else Except.ok r.user

/-- Modelled from the spec: `AuthService::find_user_by_username` is called
by handler.rs but absent from the source tree; user records are keyed by
username. -/
def find_user_by_username (svc : AuthService) (username : String) : Option UserInfo :=
  (alistFind svc.usersByName username).map UserRecord.user

/-- Modelled from the spec: `AuthService::get_all_users_map` (user id to
username), called by handler.rs but absent from the source tree. -/
def get_all_users_map (svc : AuthService) : List (Nat × String) :=
  svc.usersByName.map (fun p => (p.2.user.id, p.2.user.username))

/-- Every registered user id is below the mint counter. -/
def authInv (svc : AuthService) : Prop :=
  ∀ p ∈ svc.usersByName, p.2.user.id < svc.nextUserId

/-- Reachable auth-service states (registrations from the fresh service;
`login` does not mutate the service). -/
inductive ReachAuth : AuthService → Prop
  | base : ReachAuth AuthService.new
  | registerStep (svc : AuthService) (username : String) (nanos : Nat) (now : Int) :
      ReachAuth svc → ReachAuth (register svc username nanos now).2

theorem authInv_of_reach (svc : AuthService) (h : ReachAuth svc) : authInv svc := by
  induction h with
  | base => intro p hp; cases hp
  | registerStep svc username nanos now hr ih =>
    unfold register
    by_cases h1 : strTrim username = ""
    · rw [if_pos h1]; exact ih
    · rw [if_neg h1]
      by_cases h2 : (alistFind svc.usersByName (strTrim username)).isSome
      · rw [if_pos h2]; exact ih
      · rw [if_neg h2]
        intro p hp
        rcases mem_alistInsert hp with hp | hp
        · rw [hp]
          exact Nat.lt_succ_self _
        · exact Nat.lt_succ_of_lt (ih p hp.1)

/-- Claim C8 (confirmed): `register` trims the username; an empty or
duplicate trimmed name fails with the corresponding reason and leaves the
service unchanged (the handler maps the error to `AuthFailure`); otherwise
it mints the fresh counter value as the user id (distinct from every
registered id) and generates the password
`"dr-" ++ nanos ++ "-" ++ user id`. -/
theorem c8_register_spec (svc : AuthService) (h : ReachAuth svc) (username : String)
    (nanos : Nat) (now : Int) :
    (strTrim username = "" →
      register svc username nanos now = (Except.error "username cannot be empty", svc)) ∧
    (strTrim username ≠ "" → (alistFind svc.usersByName (strTrim username)).isSome →
      register svc username nanos now = (Except.error "username already exists", svc)) ∧
    (strTrim username ≠ "" → alistFind svc.usersByName (strTrim username) = none →
      (register svc username nanos now).1 =
        Except.ok (⟨svc.nextUserId, strTrim username, now⟩,
          "dr-" ++ toString nanos ++ "-" ++ toString svc.nextUserId) ∧
      (∀ p ∈ svc.usersByName, p.2.user.id ≠ svc.nextUserId) ∧
      (register svc username nanos now).2.nextUserId = svc.nextUserId + 1) := by
  refine ⟨?_, ?_, ?_⟩
  · intro h1
    unfold register
    rw [if_pos h1]
  · intro h1 h2
    unfold register
    rw [if_neg h1, if_pos h2]
  · intro h1 h2
    have h2b : ¬ (alistFind svc.usersByName (strTrim username)).isSome = true := by
      rw [h2]; simp
    unfold register
    rw [if_neg h1, if_neg h2b]
    refine ⟨rfl, ?_, rfl⟩
    intro p hp heq
    have := authInv_of_reach svc h p hp
    omega

/-- Witness for C8 at the fresh service and a padded username. -/
theorem c8_register_spec_witness :
    (register AuthService.new " alice " 42 0).1 =
      Except.ok (⟨1, strTrim " alice ", 0⟩, "dr-" ++ toString 42 ++ "-" ++ toString 1) ∧
    (register AuthService.new " alice " 42 0).2.nextUserId = 1 + 1 := by
  have h := (c8_register_spec AuthService.new ReachAuth.base " alice " 42 0).2.2
    (by decide) rfl
  exact ⟨h.1, h.2.2⟩

/-! ## Server messages and client messages (darkrelayprotocol/src/protocol.rs)

The `MessageMeta` carried by every wire message (server message id counter
and send timestamp) is correlation-only and elided from the embedding; the
remaining payload fields are kept. -/

structure BanInfo where
  userId : Nat
  username : String
  bannedUntil : Option Int
  bannedBy : String
deriving DecidableEq

structure AdminInfo where
  userId : Nat
  username : String
  role : Role
deriving DecidableEq

inductive ServerMsg
  | authChallenge (message : String)
  | authSuccess (user : UserInfo) (generatedPassword : Option String)
  | authFailure (reason : String)
  | ecdhAck (publicKey : List Nat)
  | channelList (channels : List ChannelInfo)
  | joinSuccess (channel : ChannelInfo)
  | joinFailure (channel : String) (reason : String)
  | messageReceived (channel : String) (message : ChatMessage)
  | historyChunk (channel : String) (messages : List ChatMessage)
  | userJoined (channel : String) (user : UserInfo)
  | userLeft (channel : String) (user : UserInfo)
  | systemMessage (text : String)
  | protocolError (text : String)
  | messageDeleted (channel : String) (messageId : Nat) (deletedBy : String)
  | userPromoted (channel : String) (userId : Nat) (username : String) (newRole : Role) (promotedBy : String)
  | userDemoted (channel : String) (userId : Nat) (username : String) (demotedBy : String)
  | userBanned (channel : String) (userId : Nat) (username : String) (bannedUntil : Option Int) (bannedBy : String) (reason : Option String)
  | userUnbanned (channel : String) (username : String) (unbannedBy : String)
  | userKicked (channel : String) (userId : Nat) (username : String) (kickedBy : String) (reason : Option String)
  | adminList (channel : String) (admins : List AdminInfo)
  | banList (channel : String) (bans : List BanInfo)
  | logList (channel : String) (logs : List LogEntry)
  | channelTypeChanged (channel : String) (newType : ChannelType) (changedBy : String)
  | channelDeleted (channel : String) (deletedBy : String)
  | adminError (reason : String)
deriving DecidableEq

inductive ClientMsg
  | connect
  | auth (key : String)
  | ecdhPublicKey (publicKey : List Nat)
  | registerUser (username : String)
  | login (username password : String)
  | joinChannel (name : String) (password : Option String)
  | sendMessage (channel : String) (content : List Nat) (metadata : List (String × String))
  | listChannels
  | getHistory (channel : String) (limit : Nat)
  | deleteMessage (channel : String) (messageId : Nat)
  | promoteUser (channel username : String) (role : Role)
  | demoteUser (channel username : String)
  | banUser (channel username : String) (durationSeconds : Option Nat) (reason : Option String)
  | unbanUser (channel username : String)
  | kickUser (channel username : String) (reason : Option String)
  | listAdmins (channel : String)
  | listBans (channel : String)
  | viewLogs (channel : String) (limit : Nat)
  | changeChannelType (channel : String) (channelType : ChannelType)
  | deleteChannel (channel : String)
  | disconnectMsg
deriving DecidableEq

/-- Embeds the Rust `Debug` rendering of `Role` used in log details. -/
def roleName : Role → String
  | .user => "User"
  | .moderator => "Moderator"
  | .admin => "Admin"
  | .superAdmin => "SuperAdmin"

/-- Embeds the Rust `Debug` rendering of `ChannelType` used in log details. -/
def ctName : ChannelType → String
  | .publicCh => "Public"
  | .privateCh => "Private"
  | .adminOnly => "AdminOnly"
  | .readOnly => "ReadOnly"
  | .announcement => "Announcement"

/-- Embeds `AdminManager::list_admins` (roles at least Moderator joined with
the username map). -/
def list_admins (am : AdminManager) (channelId : Nat) (userMap : List (Nat × String)) :
    List AdminInfo :=
  match alistFind am.channelRoles channelId with
  | none => []
  | some roles =>
    roles.filterMap (fun p =>
      if Role.moderator.rank ≤ p.2.rank then
        (alistFind userMap p.1).map (fun username => (⟨p.1, username, p.2⟩ : AdminInfo))
      else none)

/-- Embeds `BanManager::list_bans` (currently effective bans only). -/
def list_bans (bm : BanManager) (channelId : Nat) (now : Int) : List BanInfo :=
  match alistFind bm.bans channelId with
  | none => []
  | some channelBans =>
    ((channelBans.map Prod.snd).filter (fun b =>
        match b.bannedUntil with
        | some u => decide (now < u)
        | none => true)).map (fun b => (⟨b.userId, b.username, b.bannedUntil, b.bannedBy⟩ : BanInfo))

/-! ## Registry (darkrelayserver/src/registry.rs)

The `sender` field of `ClientHandle` (the mpsc queue handle) is modelled by
the separate `outboxes` map of the server state: `Registry::send` appends to
the target's queue when the target is registered. -/

structure ClientHandle where
  id : Nat
  user : Option UserInfo
  currentChannel : Option String
deriving DecidableEq

def regRegister (reg : List (Nat × ClientHandle)) (id : Nat) : List (Nat × ClientHandle) :=
  alistInsert id ⟨id, none, none⟩ reg

def regSetUser (reg : List (Nat × ClientHandle)) (id : Nat) (user : UserInfo) :
    List (Nat × ClientHandle) :=
  alistUpd id (fun h => { h with user := some user }) reg

def regUser (reg : List (Nat × ClientHandle)) (id : Nat) : Option UserInfo :=
  (alistFind reg id).bind ClientHandle.user

def regSetChannel (reg : List (Nat × ClientHandle)) (id : Nat) (channel : Option String) :
    List (Nat × ClientHandle) :=
  alistUpd id (fun h => { h with currentChannel := channel }) reg

def regChannel (reg : List (Nat × ClientHandle)) (id : Nat) : Option String :=
  (alistFind reg id).bind ClientHandle.currentChannel

def regRemove (reg : List (Nat × ClientHandle)) (id : Nat) : List (Nat × ClientHandle) :=
  alistErase id reg

def find_clients_by_user_id (reg : List (Nat × ClientHandle)) (userId : Nat) : List Nat :=
  reg.filterMap (fun p =>
    match p.2.user with
    | some u => if u.id = userId then some p.2.id else none
    | none => none)

/-! ## Server state and session

The booleans `special_authed`, `user_authed` and `ecdh_complete` are loop
locals of `handle_client`; they live here in a per-connection session map,
created on connect and dropped on disconnect, which is observationally the
same thing.  Outbox entries survive disconnect because the detached writer
task may still drain the queue. -/

structure Sess where
  specialAuthed : Bool
  userAuthed : Bool
  ecdhComplete : Bool
deriving DecidableEq

def Sess.init : Sess := ⟨false, false, false⟩

structure ServerState where
  auth : AuthService
  channels : ChannelManager
  registry : List (Nat × ClientHandle)
  ecdh : List (Nat × List Nat)
  admin : AdminManager
  bans : BanManager
  sessions : List (Nat × Sess)
  outboxes : List (Nat × List ServerMsg)
  specialKey : String
  nextClientId : Nat
deriving DecidableEq

/-- Embeds `Registry::send` (silently drops when the id is gone). -/
def sendTo (st : ServerState) (clientId : Nat) (msg : ServerMsg) : ServerState :=
  if (alistFind st.registry clientId).isSome then
    let q := (alistFind st.outboxes clientId).getD []
    { st with outboxes := alistInsert clientId (q ++ [msg]) st.outboxes }
  else st

/-- Embeds `Registry::send_many`. -/
def sendMany (st : ServerState) (ids : List Nat) (msg : ServerMsg) : ServerState :=
  ids.foldl (fun s i => sendTo s i msg) st

def setSess (st : ServerState) (clientId : Nat) (f : Sess → Sess) : ServerState :=
  { st with sessions := alistUpd clientId f st.sessions }

def outboxOf (st : ServerState) (clientId : Nat) : List ServerMsg :=
  (alistFind st.outboxes clientId).getD []

/-- Modelled from the spec: X25519 keypair generation and Diffie-Hellman of
`EcdhManager::generate_keypair` are external primitives; a 32-byte client
key is accepted (an opaque placeholder secret is stored and placeholder
server public bytes returned), any other length is rejected with the
source's error string. -/
def ecdh_generate_keypair (secrets : List (Nat × List Nat)) (clientId : Nat)
    (clientPublicKey : List Nat) : Except String (List Nat) × List (Nat × List Nat) :=
  if clientPublicKey.length ≠ 32 then (Except.error "invalid public key length", secrets)
  else (Except.ok clientPublicKey, alistInsert clientId clientPublicKey secrets)

/-- Modelled from the spec: hexadecimal decoding (the `hex` crate) of the
metadata nonce value. -/
def hexDigitVal (c : Char) : Option Nat :=
  if ('0' : Char) ≤ c ∧ c ≤ ('9' : Char) then some (c.toNat - ('0' : Char).toNat)
  else if ('a' : Char) ≤ c ∧ c ≤ ('f' : Char) then some (c.toNat - ('a' : Char).toNat + 10)
  else if ('A' : Char) ≤ c ∧ c ≤ ('F' : Char) then some (c.toNat - ('A' : Char).toNat + 10)
  else none

def hexDecodeChars : List Char → Option (List Nat)
  | [] => some []
  | [_] => none
  | c1 :: c2 :: rest =>
    match hexDigitVal c1, hexDigitVal c2, hexDecodeChars rest with
    | some hi, some lo, some t => some ((hi * 16 + lo) :: t)
    | _, _, _ => none

def hexDecode (s : String) : Option (List Nat) :=
  hexDecodeChars s.data

/-! ## The dispatcher and per-command handlers (darkrelayserver/src/handler.rs) -/

def broadcast_user_left (st : ServerState) (clientId : Nat) (channel : String)
    (user : UserInfo) : ServerState :=
  sendMany st (membersOf st.channels channel) (ServerMsg.userLeft channel user)

def broadcast_user_joined (st : ServerState) (clientId : Nat) (channel : String) : ServerState :=
  match regUser st.registry clientId with
  | none => st
  | some user => sendMany st (membersOf st.channels channel) (ServerMsg.userJoined channel user)

def broadcast_message (st : ServerState) (channel : String) (message : ChatMessage) : ServerState :=
  sendMany st (membersOf st.channels channel) (ServerMsg.messageReceived channel message)

def send_channel_list (st : ServerState) (clientId : Nat) : ServerState :=
  sendTo st clientId (ServerMsg.channelList (list_public st.channels))

def send_protocol_error (st : ServerState) (clientId : Nat) (text : String) : ServerState :=
  sendTo st clientId (ServerMsg.protocolError text)

def send_admin_error (st : ServerState) (clientId : Nat) (reason : String) : ServerState :=
  sendTo st clientId (ServerMsg.adminError reason)

/-- Embeds `cleanup_disconnect` plus the end of the per-connection task:
leave the current channel, broadcast `UserLeft`, drop the ECDH secret,
remove the connection from the registry (and its session state). -/
def cleanup_disconnect (st : ServerState) (clientId : Nat) : ServerState :=
  let user := regUser st.registry clientId
  let channel := regChannel st.registry clientId
  let st :=
    match channel with
    | some ch =>
      let st1 := { st with channels := leaveCh st.channels clientId ch }
      match user with
      | some u => broadcast_user_left st1 clientId ch u
      | none => st1
    | none => st
  let st := { st with ecdh := alistErase clientId st.ecdh }
  let st := { st with registry := regRemove st.registry clientId }
  { st with sessions := alistErase clientId st.sessions }

/-- Embeds the `JoinChannel` arm of `handle_client` (after the
`user_authed` gate): leave the previous channel with a `UserLeft`
broadcast, auto-create an absent channel seeding the creator as Admin,
refuse when the ban store says the *connection id* is banned (this is the
id the source passes), verify the channel password, then join, set the
registry channel, answer `JoinSuccess` plus the last-50 history and
broadcast `UserJoined`.  Ban-expiry dates are rendered with `toString`
in place of the chrono date format. -/
def join_leave_prev (st : ServerState) (clientId : Nat) : ServerState :=
  match regChannel st.registry clientId with
  | some p =>
    let st1 := { st with channels := leaveCh st.channels clientId p }
    match regUser st1.registry clientId with
    | some u => broadcast_user_left st1 clientId p u
    | none => st1
  | none => st

def join_ensure (st : ServerState) (clientId : Nat) (name : String)
    (password : Option String) : Nat × ServerState :=
  if (get_channel_id st.channels name).isSome then ((get_channel_id st.channels name).getD 0, st)
  else
    let r := ensure_channel_ret st.channels name password.isNone password
    let st2 := { st with channels := r.2 }
    (r.1, { st2 with admin := set_channel_creator st2.admin r.1 clientId })

def join_success (st : ServerState) (clientId : Nat) (name : String) (channelId : Nat)
    (channelInfoBase : ChannelInfo) : ServerState :=
  let role := get_role st.admin channelId clientId
  let channelType := get_channel_type st.admin channelId
  let channelInfo :=
    match get_channel_id st.channels name with
    | some realId => (⟨realId, name, channelInfoBase.isPublic, channelType, some role⟩ : ChannelInfo)
    | none => channelInfoBase
  let st := { st with registry := regSetChannel st.registry clientId (some channelInfo.name) }
  let st := sendTo st clientId (ServerMsg.joinSuccess channelInfo)
  let hist := history st.channels channelInfo.name 50
  let st := sendTo st clientId (ServerMsg.historyChunk channelInfo.name hist)
  broadcast_user_joined st clientId channelInfo.name

def handle_join_channel (now : Int) (st : ServerState) (clientId : Nat) (name : String)
    (password : Option String) : ServerState :=
  let st := join_leave_prev st clientId
  let r := join_ensure st clientId name password
  let channelId := r.1
  let st := r.2
  if is_banned st.bans channelId clientId now then
    let reason :=
      match (get_ban_info st.bans channelId clientId).bind Ban.bannedUntil with
      | some u => "Banned until " ++ toString u
      | none => "Permanently banned from channel"
    sendTo st clientId (ServerMsg.joinFailure name reason)
  else
    let jr := joinCh st.channels clientId name password
    match jr.1 with
    | Except.ok channelInfoBase =>
      join_success { st with channels := jr.2 } clientId name channelId channelInfoBase
    | Except.error reason =>
      sendTo { st with channels := jr.2 } clientId (ServerMsg.joinFailure name reason)

/-- Embeds the `SendMessage` arm of `handle_client` (after the gate). -/
def handle_send_message (now : Int) (st : ServerState) (clientId : Nat) (channel : String)
    (content : List Nat) (metadata : List (String × String)) : ServerState :=
  let user := regUser st.registry clientId
  let currentChannel := regChannel st.registry clientId
  match user with
  | none => send_protocol_error st clientId "user missing"
  | some user =>
    if currentChannel ≠ some channel then send_protocol_error st clientId "not joined to channel"
    else
      let canSendOk :=
        match get_channel_id st.channels channel with
        | some chId => can_send_message st.admin chId clientId
        | none => true
      if canSendOk then
        let nonce := ((metadata.find? (fun p => p.1 == "nonce")).map Prod.snd).bind hexDecode
        let msg : ChatMessage := ⟨0, user.id, user.username, content, now, nonce, metadata⟩
        let ar := add_message st.channels channel msg now
        match ar.1 with
        | Except.ok stored =>
          let st := { st with channels := ar.2 }
          broadcast_message st channel stored
        | Except.error reason =>
          let st := { st with channels := ar.2 }
          send_protocol_error st clientId reason
      else send_admin_error st clientId "You lack permission to send messages in this channel"

def handle_get_history (st : ServerState) (clientId : Nat) (channel : String)
    (limit : Nat) : ServerState :=
  sendTo st clientId (ServerMsg.historyChunk channel (history st.channels channel limit))

def adminUsernameOf (st : ServerState) (clientId : Nat) : String :=
  ((regUser st.registry clientId).map UserInfo.username).getD ""

def handle_delete_message (now : Int) (st : ServerState) (clientId : Nat) (channel : String)
    (messageId : Nat) : ServerState :=
  match get_channel_id st.channels channel with
  | none => send_admin_error st clientId "Channel not found"
  | some chId =>
    if am_has_permission st.admin chId clientId Permission.deleteMessage then
      let dr := delete_message st.channels channel messageId
      let st := { st with channels := dr.2 }
      if dr.1 then
        let adminUsername := adminUsernameOf st clientId
        let st := { st with admin := log_action st.admin chId clientId adminUsername "delete_message" ("message_" ++ toString messageId) "Message deleted" now }
        sendMany st (membersOf st.channels channel) (ServerMsg.messageDeleted channel messageId adminUsername)
      else send_admin_error st clientId "Message not found"
    else send_admin_error st clientId "You lack permission: DeleteMessage"

def handle_promote_user (now : Int) (st : ServerState) (clientId : Nat) (channel : String)
    (username : String) (role : Role) : ServerState :=
  match get_channel_id st.channels channel with
  | none => send_admin_error st clientId "Channel not found"
  | some chId =>
    if am_has_permission st.admin chId clientId Permission.promoteUser then
      match find_user_by_username st.auth username with
      | none => send_admin_error st clientId "User not found"
      | some target =>
        let st := { st with admin := set_role st.admin chId target.id role }
        let adminUsername := adminUsernameOf st clientId
        let st := { st with admin := log_action st.admin chId clientId adminUsername "promote_user" username ("Promoted to " ++ roleName role) now }
        sendMany st (membersOf st.channels channel) (ServerMsg.userPromoted channel target.id username role adminUsername)
    else send_admin_error st clientId "You lack permission: PromoteUser"

def handle_demote_user (now : Int) (st : ServerState) (clientId : Nat) (channel : String)
    (username : String) : ServerState :=
  match get_channel_id st.channels channel with
  | none => send_admin_error st clientId "Channel not found"
  | some chId =>
    if am_has_permission st.admin chId clientId Permission.promoteUser then
      match find_user_by_username st.auth username with
      | none => send_admin_error st clientId "User not found"
      | some target =>
        let st := { st with admin := set_role st.admin chId target.id Role.user }
        let adminUsername := adminUsernameOf st clientId
        let st := { st with admin := log_action st.admin chId clientId adminUsername "demote_user" username "Demoted to User" now }
        sendMany st (membersOf st.channels channel) (ServerMsg.userDemoted channel target.id username adminUsername)
    else send_admin_error st clientId "You lack permission: PromoteUser"

def handle_ban_user (now : Int) (st : ServerState) (clientId : Nat) (channel : String)
    (username : String) (durationSeconds : Option Nat) (reason : Option String) : ServerState :=
  match get_channel_id st.channels channel with
  | none => send_admin_error st clientId "Channel not found"
  | some chId =>
    if am_has_permission st.admin chId clientId Permission.banUser then
      match find_user_by_username st.auth username with
      | none => send_admin_error st clientId "User not found"
      | some target =>
        let adminUsername := adminUsernameOf st clientId
        let br := ban_user st.bans chId target.id target.username adminUsername durationSeconds reason now
        let st := { st with bans := br.2 }
        let details :=
          match durationSeconds with
          | some secs => "Banned for " ++ toString secs ++ " seconds"
          | none => "Permanently banned"
        let st := { st with admin := log_action st.admin chId clientId adminUsername "ban_user" username details now }
        let targetClientIds := find_clients_by_user_id st.registry target.id
        let st := targetClientIds.foldl (fun s tcid =>
            if regChannel s.registry tcid = some channel then
              let s1 := { s with channels := leaveCh s.channels tcid channel }
              sendTo s1 tcid (ServerMsg.systemMessage ("You have been banned from this channel. Reason: " ++ reason.getD ""))
            else s) st
        sendMany st (membersOf st.channels channel) (ServerMsg.userBanned channel target.id username br.1 adminUsername reason)
    else send_admin_error st clientId "You lack permission: BanUser"

def handle_unban_user (now : Int) (st : ServerState) (clientId : Nat) (channel : String)
    (username : String) : ServerState :=
  match get_channel_id st.channels channel with
  | none => send_admin_error st clientId "Channel not found"
  | some chId =>
    if am_has_permission st.admin chId clientId Permission.banUser then
      match find_user_by_username st.auth username with
      | none => send_admin_error st clientId "User not found"
      | some target =>
        let ur := unban_user st.bans chId target.id
        let st := { st with bans := ur.2 }
        if ur.1 then
          let adminUsername := adminUsernameOf st clientId
          let st := { st with admin := log_action st.admin chId clientId adminUsername "unban_user" username "Unbanned" now }
          sendMany st (membersOf st.channels channel) (ServerMsg.userUnbanned channel username adminUsername)
        else send_admin_error st clientId "User is not banned"
    else send_admin_error st clientId "You lack permission: BanUser"

def handle_kick_user (now : Int) (st : ServerState) (clientId : Nat) (channel : String)
    (username : String) (reason : Option String) : ServerState :=
  match get_channel_id st.channels channel with
  | none => send_admin_error st clientId "Channel not found"
  | some chId =>
    if am_has_permission st.admin chId clientId Permission.kickUser then
      match find_user_by_username st.auth username with
      | none => send_admin_error st clientId "User not found"
      | some target =>
        let adminUsername := adminUsernameOf st clientId
        let st := { st with admin := log_action st.admin chId clientId adminUsername "kick_user" username (reason.getD "") now }
        let targetClientIds := find_clients_by_user_id st.registry target.id
        let st := targetClientIds.foldl (fun s tcid =>
            if regChannel s.registry tcid = some channel then
              let s1 := { s with channels := leaveCh s.channels tcid channel }
              sendTo s1 tcid (ServerMsg.systemMessage ("You have been kicked from this channel. Reason: " ++ reason.getD ""))
            else s) st
        sendMany st (membersOf st.channels channel) (ServerMsg.userKicked channel target.id username adminUsername reason)
    else send_admin_error st clientId "You lack permission: KickUser"

def handle_list_admins (st : ServerState) (clientId : Nat) (channel : String) : ServerState :=
  match get_channel_id st.channels channel with
  | none => send_admin_error st clientId "Channel not found"
  | some chId =>
    let userMap := get_all_users_map st.auth
    sendTo st clientId (ServerMsg.adminList channel (list_admins st.admin chId userMap))

def handle_list_bans (now : Int) (st : ServerState) (clientId : Nat) (channel : String) : ServerState :=
  match get_channel_id st.channels channel with
  | none => send_admin_error st clientId "Channel not found"
  | some chId =>
    if am_has_permission st.admin chId clientId Permission.viewLogs then
      sendTo st clientId (ServerMsg.banList channel (list_bans st.bans chId now))
    else send_admin_error st clientId "You lack permission: ViewLogs"

def handle_view_logs (st : ServerState) (clientId : Nat) (channel : String)
    (limit : Nat) : ServerState :=
  match get_channel_id st.channels channel with
  | none => send_admin_error st clientId "Channel not found"
  | some chId =>
    if am_has_permission st.admin chId clientId Permission.viewLogs then
      sendTo st clientId (ServerMsg.logList channel (get_logs st.admin chId limit))
    else send_admin_error st clientId "You lack permission: ViewLogs"

def handle_change_channel_type (now : Int) (st : ServerState) (clientId : Nat)
    (channel : String) (channelType : ChannelType) : ServerState :=
  match get_channel_id st.channels channel with
  | none => send_admin_error st clientId "Channel not found"
  | some chId =>
    if am_has_permission st.admin chId clientId Permission.manageChannel then
      let st := { st with admin := set_channel_type st.admin chId channelType }
      let adminUsername := adminUsernameOf st clientId
      let st := { st with admin := log_action st.admin chId clientId adminUsername "change_channel_type" channel ("Changed to " ++ ctName channelType) now }
      sendMany st (membersOf st.channels channel) (ServerMsg.channelTypeChanged channel channelType adminUsername)
    else send_admin_error st clientId "You lack permission: ManageChannel"

def handle_delete_channel (st : ServerState) (clientId : Nat) (channel : String) : ServerState :=
  match get_channel_id st.channels channel with
  | none => send_admin_error st clientId "Channel not found"
  | some chId =>
    if get_role st.admin chId clientId = Role.superAdmin then
      let adminUsername := adminUsernameOf st clientId
      let members := membersOf st.channels channel
      let st := sendMany st members (ServerMsg.channelDeleted channel adminUsername)
      let st := members.foldl (fun s memberId =>
          if regChannel s.registry memberId = some channel then
            { s with registry := regSetChannel s.registry memberId none }
          else s) st
      let st := { st with channels := delete_channel st.channels channel }
      { st with admin := am_remove_channel st.admin chId }
    else send_admin_error st clientId "Only SuperAdmin can delete channels"

/-- The message dispatcher of `handle_client`.  The `user_authed` gate of
the admin handlers is written at the dispatch site (the source checks the
flag first thing inside each `handle_*`, which is behaviourally the same).
`Utc::now` and the epoch nanoseconds are environment inputs `now` and
`nanos`.  A message from a connection with no session state is impossible
in the program and leaves the state unchanged. -/
def handle_msg (now : Int) (nanos : Nat) (st : ServerState) (clientId : Nat)
    (msg : ClientMsg) : ServerState :=
  match alistFind st.sessions clientId with
  | none => st
  | some sess =>
    match msg with
    | .connect => st
    | .auth key =>
      if verify_special_key st.specialKey key then
        let st := setSess st clientId (fun s => { s with specialAuthed := true })
        sendTo st clientId (ServerMsg.systemMessage "special key accepted; send ECDH public key")
      else
        let st := sendTo st clientId (ServerMsg.authFailure "invalid special key")
        cleanup_disconnect st clientId
    | .ecdhPublicKey publicKey =>
      if sess.specialAuthed then
        let er := ecdh_generate_keypair st.ecdh clientId publicKey
        match er.1 with
        | Except.ok serverPub =>
          let st := { st with ecdh := er.2 }
          let st := setSess st clientId (fun s => { s with ecdhComplete := true })
          let st := sendTo st clientId (ServerMsg.ecdhAck serverPub)
          sendTo st clientId (ServerMsg.systemMessage "encryption enabled; please login or register")
        | Except.error reason =>
          let st := { st with ecdh := er.2 }
          send_protocol_error st clientId reason
      else send_protocol_error st clientId "special auth required"
    | .registerUser username =>
      if sess.specialAuthed then
        let rr := register st.auth username nanos now
        let st := { st with auth := rr.2 }
        match rr.1 with
        | Except.ok userAndPw =>
          let st := { st with registry := regSetUser st.registry clientId userAndPw.1 }
          let st := setSess st clientId (fun s => { s with userAuthed := true })
          let st := sendTo st clientId (ServerMsg.authSuccess userAndPw.1 (some userAndPw.2))
          send_channel_list st clientId
        | Except.error reason => sendTo st clientId (ServerMsg.authFailure reason)
      else send_protocol_error st clientId "special auth required"
    | .login username password =>
      if sess.specialAuthed then
        match login st.auth username password with
        | Except.ok user =>
          let st := { st with registry := regSetUser st.registry clientId user }
          let st := setSess st clientId (fun s => { s with userAuthed := true })
          let st := sendTo st clientId (ServerMsg.authSuccess user none)
          send_channel_list st clientId
        | Except.error reason => sendTo st clientId (ServerMsg.authFailure reason)
      else send_protocol_error st clientId "special auth required"
    | .listChannels =>
      if sess.userAuthed then send_channel_list st clientId
      else send_protocol_error st clientId "login/register required"
    | .joinChannel name password =>
      if sess.userAuthed then handle_join_channel now st clientId name password
      else send_protocol_error st clientId "login/register required"
    | .sendMessage channel content metadata =>
      if sess.userAuthed then handle_send_message now st clientId channel content metadata
      else send_protocol_error st clientId "login/register required"
    | .getHistory channel limit =>
      if sess.userAuthed then handle_get_history st clientId channel limit
      else send_protocol_error st clientId "login/register required"
    | .deleteMessage channel messageId =>
      if sess.userAuthed then handle_delete_message now st clientId channel messageId
      else send_protocol_error st clientId "login/register required"
    | .promoteUser channel username role =>
      if sess.userAuthed then handle_promote_user now st clientId channel username role
      else send_protocol_error st clientId "login/register required"
    | .demoteUser channel username =>
      if sess.userAuthed then handle_demote_user now st clientId channel username
      else send_protocol_error st clientId "login/register required"
    | .banUser channel username durationSeconds reason =>
      if sess.userAuthed then handle_ban_user now st clientId channel username durationSeconds reason
      else send_protocol_error st clientId "login/register required"
    | .unbanUser channel username =>
      if sess.userAuthed then handle_unban_user now st clientId channel username
      else send_protocol_error st clientId "login/register required"
    | .kickUser channel username reason =>
      if sess.userAuthed then handle_kick_user now st clientId channel username reason
      else send_protocol_error st clientId "login/register required"
    | .listAdmins channel =>
      if sess.userAuthed then handle_list_admins st clientId channel
      else send_protocol_error st clientId "login/register required"
    | .listBans channel =>
      if sess.userAuthed then handle_list_bans now st clientId channel
      else send_protocol_error st clientId "login/register required"
    | .viewLogs channel limit =>
      if sess.userAuthed then handle_view_logs st clientId channel limit
      else send_protocol_error st clientId "login/register required"
    | .changeChannelType channel channelType =>
      if sess.userAuthed then handle_change_channel_type now st clientId channel channelType
      else send_protocol_error st clientId "login/register required"
    | .deleteChannel channel =>
      if sess.userAuthed then handle_delete_channel st clientId channel
      else send_protocol_error st clientId "login/register required"
    | .disconnectMsg => cleanup_disconnect st clientId

/-- Embeds the accept path of `main`: mint the next client id, register the
connection and its outbound queue, start the session in `AWAIT_GATE` and
send the `AuthChallenge`. -/
def handle_connect (st : ServerState) : ServerState :=
  let clientId := st.nextClientId
  let st := { st with nextClientId := clientId + 1 }
  let st := { st with registry := regRegister st.registry clientId }
  let st := { st with sessions := alistInsert clientId Sess.init st.sessions }
  let st := { st with outboxes := alistInsert clientId [] st.outboxes }
  sendTo st clientId (ServerMsg.authChallenge "special auth key required")

inductive Event
  | connectEv
  | msgEv (clientId : Nat) (now : Int) (nanos : Nat) (msg : ClientMsg)
  | disconnectEv (clientId : Nat)
  | banCleanupEv (now : Int)

def step (st : ServerState) : Event → ServerState
  | .connectEv => handle_connect st
  | .msgEv clientId now nanos msg => handle_msg now nanos st clientId msg
  | .disconnectEv clientId => cleanup_disconnect st clientId
  | .banCleanupEv now => { st with bans := cleanup_expired st.bans now }

/-- Embeds the server start of `main`: fresh stores, the `"general"`
channel ensured, client ids minted from 1. -/
def initState (specialKey : String) : ServerState :=
  ⟨AuthService.new, (ensure_channel_ret ChannelManager.new "general" true none).2,
   [], [], AdminManager.new, BanManager.new, [], [], specialKey, 1⟩

def runEvents (specialKey : String) (events : List Event) : ServerState :=
  events.foldl step (initState specialKey)

/-- Reachable server states. -/
inductive ReachSrv : ServerState → Prop
  | base (specialKey : String) : ReachSrv (initState specialKey)
  | stepR (st : ServerState) (e : Event) : ReachSrv st → ReachSrv (step st e)

/-! ## Theorems for the AWAIT_GATE claim (C5) -/

/-- Claim C5 (corrected): in `AWAIT_GATE` a `ListChannels` is answered with
`ProtocolError "login/register required"`, not with
`ProtocolError "special auth required"` as the claim states (and the
`AuthChallenge` sent at connect is the only other queued message). -/
theorem c5_counterexample :
    outboxOf (runEvents "k" [Event.connectEv, Event.msgEv 1 0 0 ClientMsg.listChannels]) 1 =
      [ServerMsg.authChallenge "special auth key required",
       ServerMsg.protocolError "login/register required"] ∧
    ServerMsg.protocolError "special auth required" ∉
      outboxOf (runEvents "k" [Event.connectEv, Event.msgEv 1 0 0 ClientMsg.listChannels]) 1 := by
  constructor
  · rfl
  · decide

/-- Claim C5 (amended): in `AWAIT_GATE` (session flags all false) the
dispatcher behaves as follows.  `Connect` is a silent no-op.
`EcdhPublicKey`, `RegisterUser` and `Login` are answered with
`ProtocolError "special auth required"` and change nothing but the
requester's queue.  `ListChannels`, `JoinChannel`, `SendMessage`,
`GetHistory` and every admin verb are answered with
`ProtocolError "login/register required"`, likewise without state change.
`Disconnect` closes the session.  An `Auth` with the right key passes the
gate with a `SystemMessage`; an `Auth` with a wrong key is fatal:
`AuthFailure` is queued and the connection is cleaned up. -/
theorem c5_await_gate_dispatch (now : Int) (nanos : Nat) (st : ServerState) (clientId : Nat)
    (hs : alistFind st.sessions clientId = some Sess.init) (msg : ClientMsg) :
    handle_msg now nanos st clientId msg =
      match msg with
      | .connect => st
      | .auth key =>
        if verify_special_key st.specialKey key then
          sendTo (setSess st clientId (fun s => { s with specialAuthed := true })) clientId
            (ServerMsg.systemMessage "special key accepted; send ECDH public key")
        else cleanup_disconnect (sendTo st clientId (ServerMsg.authFailure "invalid special key")) clientId
      | .ecdhPublicKey _ => sendTo st clientId (ServerMsg.protocolError "special auth required")
      | .registerUser _ => sendTo st clientId (ServerMsg.protocolError "special auth required")
      | .login _ _ => sendTo st clientId (ServerMsg.protocolError "special auth required")
      | .disconnectMsg => cleanup_disconnect st clientId
      | _ => sendTo st clientId (ServerMsg.protocolError "login/register required") := by
  unfold handle_msg
  rw [hs]
  cases msg <;> rfl

/-- Witness for C5 (amended) at a concrete freshly connected session. -/
theorem c5_await_gate_dispatch_witness :
    handle_msg 0 0 (runEvents "k" [Event.connectEv]) 1 ClientMsg.listChannels =
      sendTo (runEvents "k" [Event.connectEv]) 1
        (ServerMsg.protocolError "login/register required") :=
  c5_await_gate_dispatch 0 0 (runEvents "k" [Event.connectEv]) 1 rfl ClientMsg.listChannels

/-! ## Theorem for the ban-enforcement claim (C1)

The source stores a ban under the target's user id
(`handle_ban_user` passes `target.id` from the auth service) but the
JoinChannel ban check passes the joining *connection* id into
`BanManager::is_banned(channel_id, user_id)`.  The two id spaces are
minted by independent counters, so a banned user whose connection id
differs from their user id is admitted.  In the trace below connection 2
registers first (user alice = user id 1) and connection 1 registers second
(user bob = user id 2); alice creates channel `"arena"` (channel id 2) and
permanently bans bob; bob's subsequent join from connection 1 succeeds. -/

def c1Events : List Event :=
  [Event.connectEv,
   Event.connectEv,
   Event.msgEv 2 0 0 (ClientMsg.auth "k"),
   Event.msgEv 2 0 0 (ClientMsg.registerUser "alice"),
   Event.msgEv 1 0 0 (ClientMsg.auth "k"),
   Event.msgEv 1 0 0 (ClientMsg.registerUser "bob"),
   Event.msgEv 2 0 0 (ClientMsg.joinChannel "arena" none),
   Event.msgEv 2 0 0 (ClientMsg.banUser "arena" "bob" none none),
   Event.msgEv 1 0 0 (ClientMsg.joinChannel "arena" none)]

/-- Claim C1 (code bug): after `BanUser` of bob in `"arena"` the ban record
for (channel 2, user id 2) is active, unexpired and unlifted, connection 1
is authenticated as bob, and yet bob's `JoinChannel` is answered with
`JoinSuccess` (no `JoinFailure`) and connection 1 is added to the member
set. -/
theorem c1_ban_bypass_code_bug :
    is_banned (runEvents "k" c1Events).bans 2 2 0 = true ∧
    regUser (runEvents "k" c1Events).registry 1 = some ⟨2, "bob", 0⟩ ∧
    1 ∈ membersOf (runEvents "k" c1Events).channels "arena" ∧
    ((outboxOf (runEvents "k" c1Events) 1).any (fun m =>
        match m with
        | ServerMsg.joinSuccess ci => ci.name == "arena"
        | _ => false)) = true ∧
    ((outboxOf (runEvents "k" c1Events) 1).all (fun m =>
        match m with
        | ServerMsg.joinFailure _ _ => false
        | _ => true)) = true := by
  decide

/-! ## The membership/current-channel invariant (C2): framework -/

theorem mem_alistUpd2 {κ ν : Type} [DecidableEq κ] {a : κ} {f : ν → ν} {l : List (κ × ν)}
    {p : κ × ν} (h : p ∈ alistUpd a f l) :
    ∃ q ∈ l, (q.1 ≠ a ∧ p = q) ∨ (q.1 = a ∧ p = (q.1, f q.2)) := by
  induction l with
  | nil => cases h
  | cons q0 t ih =>
    obtain ⟨k, v⟩ := q0
    rw [alistUpd] at h
    rcases List.mem_cons.mp h with h | h
    · by_cases hk : k = a
      · rw [if_pos hk] at h
        exact ⟨(k, v), List.mem_cons_self _ _, Or.inr ⟨hk, h⟩⟩
      · rw [if_neg hk] at h
        exact ⟨(k, v), List.mem_cons_self _ _, Or.inl ⟨hk, h⟩⟩
    · obtain ⟨q, hq, hdis⟩ := ih h
      exact ⟨q, List.mem_cons_of_mem _ hq, hdis⟩

theorem mem_memberInsert {c a : Nat} {s : List Nat} (h : c ∈ memberInsert a s) :
    c = a ∨ c ∈ s := by
  unfold memberInsert at h
  by_cases hm : a ∈ s
  · rw [if_pos hm] at h
    exact Or.inr h
  · rw [if_neg hm] at h
    rcases List.mem_cons.mp h with h | h
    · exact Or.inl h
    · exact Or.inr h

/-- The four fields the invariant reads. -/
def SameCore (st st' : ServerState) : Prop :=
  st'.channels = st.channels ∧ st'.registry = st.registry ∧
  st'.sessions = st.sessions ∧ st'.nextClientId = st.nextClientId

theorem sameCore_refl (st : ServerState) : SameCore st st := ⟨rfl, rfl, rfl, rfl⟩

theorem sameCore_trans {s1 s2 s3 : ServerState} (h1 : SameCore s1 s2)
    (h2 : SameCore s2 s3) : SameCore s1 s3 :=
  ⟨h2.1.trans h1.1, h2.2.1.trans h1.2.1, h2.2.2.1.trans h1.2.2.1, h2.2.2.2.trans h1.2.2.2⟩

theorem sendTo_sameCore (st : ServerState) (c : Nat) (m : ServerMsg) :
    SameCore st (sendTo st c m) := by
  unfold sendTo
  split
  · exact ⟨rfl, rfl, rfl, rfl⟩
  · exact sameCore_refl st

theorem sendMany_sameCore (ids : List Nat) (m : ServerMsg) :
    ∀ st : ServerState, SameCore st (sendMany st ids m) := by
  induction ids with
  | nil => intro st; exact sameCore_refl st
  | cons i t ih =>
    intro st
    exact sameCore_trans (sendTo_sameCore st i m) (ih (sendTo st i m))

theorem broadcast_user_left_sameCore (st : ServerState) (clientId : Nat) (channel : String)
    (user : UserInfo) : SameCore st (broadcast_user_left st clientId channel user) :=
  sendMany_sameCore _ _ st

theorem broadcast_user_joined_sameCore (st : ServerState) (clientId : Nat)
    (channel : String) : SameCore st (broadcast_user_joined st clientId channel) := by
  unfold broadcast_user_joined
  cases regUser st.registry clientId with
  | none => exact sameCore_refl st
  | some u => exact sendMany_sameCore _ _ st

theorem broadcast_message_sameCore (st : ServerState) (channel : String) (m : ChatMessage) :
    SameCore st (broadcast_message st channel m) :=
  sendMany_sameCore _ _ st

theorem send_channel_list_sameCore (st : ServerState) (c : Nat) :
    SameCore st (send_channel_list st c) :=
  sendTo_sameCore _ _ _

/-! ### The invariant -/

def InvMembers (st : ServerState) : Prop :=
  ∀ p ∈ st.channels.channelsByName, ∀ c ∈ p.2.members, regChannel st.registry c = some p.1

def InvNames (st : ServerState) : Prop :=
  ∀ p ∈ st.channels.channelsByName, p.2.name = p.1

def InvBounds (st : ServerState) : Prop :=
  (∀ p ∈ st.channels.channelsByName, ∀ c ∈ p.2.members, c < st.nextClientId) ∧
  (∀ q ∈ st.registry, q.1 < st.nextClientId) ∧
  (∀ s ∈ st.sessions, s.1 < st.nextClientId)

def InvSess (st : ServerState) : Prop :=
  ∀ s ∈ st.sessions, (alistFind st.registry s.1).isSome = true

def Inv (st : ServerState) : Prop :=
  InvMembers st ∧ InvNames st ∧ InvBounds st ∧ InvSess st

theorem Inv_of_sameCore {st st' : ServerState} (hc : SameCore st st') (h : Inv st) :
    Inv st' := by
  obtain ⟨h1, h2, h3, h4⟩ := hc
  obtain ⟨hm, hn, hb, hs⟩ := h
  unfold Inv InvMembers InvNames InvBounds InvSess
  rw [h1, h2, h3, h4]
  exact ⟨hm, hn, hb, hs⟩

/-- Channel-store updates whose entries either are fresh with no members
(and a name matching the key) or shrink an existing entry's member set
while keeping its key and name preserve the invariant. -/
theorem Inv_channels_step (st : ServerState) (cm2 : ChannelManager)
    (hmem : ∀ p ∈ cm2.channelsByName,
        (p.2.members = [] ∧ p.2.name = p.1) ∨
        ∃ q ∈ st.channels.channelsByName,
          q.1 = p.1 ∧ (∀ c ∈ p.2.members, c ∈ q.2.members) ∧ p.2.name = q.2.name)
    (h : Inv st) : Inv { st with channels := cm2 } := by
  obtain ⟨hm, hn, hb, hs⟩ := h
  refine ⟨?_, ?_, ⟨?_, hb.2.1, hb.2.2⟩, hs⟩
  · intro p hp c hc
    rcases hmem p hp with he | ⟨q, hq, hk, hsub, hname⟩
    · rw [he.1] at hc
      cases hc
    · rw [← hk]
      exact hm q hq c (hsub c hc)
  · intro p hp
    rcases hmem p hp with he | ⟨q, hq, hk, hsub, hname⟩
    · exact he.2
    · rw [hname, hn q hq, hk]
  · intro p hp c hc
    rcases hmem p hp with he | ⟨q, hq, hk, hsub, hname⟩
    · rw [he.1] at hc
      cases hc
    · exact hb.1 q hq c (hsub c hc)

theorem Inv_leave (st : ServerState) (clientId : Nat) (name : String) (h : Inv st) :
    Inv { st with channels := leaveCh st.channels clientId name } := by
  refine Inv_channels_step st _ ?_ h
  intro p hp
  unfold leaveCh at hp
  simp only at hp
  rcases mem_alistUpd2 hp with ⟨q, hq, hd | hd⟩
  · rw [hd.2]
    exact Or.inr ⟨q, hq, rfl, fun c hc => hc, rfl⟩
  · rw [hd.2.trans (congrArg _ rfl)]
    refine Or.inr ⟨q, hq, hd.1.symm ▸ rfl, ?_, rfl⟩
    intro c hc
    simp only at hc
    exact (List.mem_filter.mp hc).1

theorem Inv_ensure (st : ServerState) (name : String) (isPublic : Bool)
    (password : Option String) (h : Inv st) :
    Inv { st with channels := ensure_channel st.channels name isPublic password } := by
  refine Inv_channels_step st _ ?_ h
  intro p hp
  unfold ensure_channel at hp
  by_cases hex : (alistFind st.channels.channelsByName name).isSome
  · rw [if_pos hex] at hp
    exact Or.inr ⟨p, hp, rfl, fun c hc => hc, rfl⟩
  · rw [if_neg hex] at hp
    simp only at hp
    rcases mem_alistInsert hp with hp | hp
    · rw [hp]
      exact Or.inl ⟨rfl, rfl⟩
    · exact Or.inr ⟨p, hp.1, rfl, fun c hc => hc, rfl⟩

theorem Inv_upd_messages (st : ServerState) (name : String)
    (g : Channel → List ChatMessage) (h : Inv st) :
    Inv { st with channels := { st.channels with channelsByName := alistUpd name (fun c => { c with messages := g c }) st.channels.channelsByName } } := by
  refine Inv_channels_step st _ ?_ h
  intro p hp
  simp only at hp
  rcases mem_alistUpd2 hp with ⟨q, hq, hd | hd⟩
  · rw [hd.2]
    exact Or.inr ⟨q, hq, rfl, fun c hc => hc, rfl⟩
  · rw [hd.2]
    exact Or.inr ⟨q, hq, hd.1.symm ▸ rfl, fun c hc => hc, rfl⟩

theorem Inv_delete_channel (st : ServerState) (channel : String) (h : Inv st) :
    Inv { st with channels := delete_channel st.channels channel } := by
  refine Inv_channels_step st _ ?_ h
  intro p hp
  unfold delete_channel at hp
  simp only at hp
  exact Or.inr ⟨p, (mem_alistErase hp).1, rfl, fun c hc => hc, rfl⟩

/-! ### Registry projection lemmas -/

theorem regChannel_setUser (reg : List (Nat × ClientHandle)) (id : Nat) (user : UserInfo)
    (c : Nat) : regChannel (regSetUser reg id user) c = regChannel reg c := by
  unfold regChannel regSetUser
  by_cases hc : c = id
  · subst hc
    rw [alistFind_upd_self]
    cases alistFind reg c <;> rfl
  · rw [alistFind_upd_ne _ _ _ _ hc]

theorem regChannel_setChannel_ne (reg : List (Nat × ClientHandle)) (id : Nat)
    (ch : Option String) (c : Nat) (hc : c ≠ id) :
    regChannel (regSetChannel reg id ch) c = regChannel reg c := by
  unfold regChannel regSetChannel
  rw [alistFind_upd_ne _ _ _ _ hc]

theorem regChannel_setChannel_self (reg : List (Nat × ClientHandle)) (id : Nat)
    (ch : Option String) (h : (alistFind reg id).isSome = true) :
    regChannel (regSetChannel reg id ch) id = ch := by
  unfold regChannel regSetChannel
  rw [alistFind_upd_self]
  cases hfind : alistFind reg id with
  | none => rw [hfind] at h; cases h
  | some v => rfl

theorem regChannel_setChannel_none (reg : List (Nat × ClientHandle)) (id : Nat)
    (ch : Option String) (h : alistFind reg id = none) :
    regChannel (regSetChannel reg id ch) id = none := by
  unfold regChannel regSetChannel
  rw [alistFind_upd_self, h]
  rfl

theorem regChannel_remove_ne (reg : List (Nat × ClientHandle)) (id : Nat) (c : Nat)
    (hc : c ≠ id) : regChannel (regRemove reg id) c = regChannel reg c := by
  unfold regChannel regRemove
  rw [alistFind_erase_ne _ _ _ hc]

theorem regChannel_register_ne (reg : List (Nat × ClientHandle)) (id : Nat) (c : Nat)
    (hc : c ≠ id) : regChannel (regRegister reg id) c = regChannel reg c := by
  unfold regChannel regRegister
  rw [alistFind_insert_ne _ _ _ _ hc]

/-- No channel currently holds `clientId` as a member. -/
def NoMem (st : ServerState) (clientId : Nat) : Prop :=
  ∀ p ∈ st.channels.channelsByName, clientId ∉ p.2.members

theorem noMem_of_sameCore {st st' : ServerState} {clientId : Nat} (hc : SameCore st st')
    (h : NoMem st clientId) : NoMem st' clientId := by
  unfold NoMem
  rw [hc.1]
  exact h

theorem noMem_of_cur_none (st : ServerState) (clientId : Nat)
    (hcur : regChannel st.registry clientId = none) (h : Inv st) :
    NoMem st clientId := by
  intro p hp hc
  have := h.1 p hp clientId hc
  rw [hcur] at this
  cases this

theorem noMem_after_leave (st : ServerState) (clientId : Nat) (prev : String)
    (hcur : regChannel st.registry clientId = some prev) (h : Inv st) :
    NoMem { st with channels := leaveCh st.channels clientId prev } clientId := by
  intro p hp hc
  unfold leaveCh at hp
  simp only at hp
  rcases mem_alistUpd2 hp with ⟨q, hq, hd | hd⟩
  · rw [hd.2] at hc
    have := h.1 q hq clientId hc
    rw [hcur] at this
    exact hd.1 (Option.some_inj.mp this).symm
  · rw [hd.2] at hc
    simp only at hc
    have := (List.mem_filter.mp hc).2
    simp at this

/-! ### Invariant preservation of the registry and session primitives -/

theorem Inv_setUser (st : ServerState) (id : Nat) (user : UserInfo) (h : Inv st) :
    Inv { st with registry := regSetUser st.registry id user } := by
  obtain ⟨hm, hn, hb, hs⟩ := h
  refine ⟨?_, hn, ⟨hb.1, ?_, hb.2.2⟩, ?_⟩
  · intro p hp c hc
    show regChannel (regSetUser st.registry id user) c = some p.1
    rw [regChannel_setUser]
    exact hm p hp c hc
  · intro q hq
    have hq2 : q ∈ alistUpd id (fun h2 => { h2 with user := some user }) st.registry := hq
    exact alistUpd_forall (a := id)
      (f := fun h2 : ClientHandle => { h2 with user := some user })
      (P := fun q => q.1 < st.nextClientId)
      hb.2.1 (fun k v hkv he hv => hv) q hq2
  · intro s hsm
    show (alistFind (regSetUser st.registry id user) s.1).isSome = true
    unfold regSetUser
    rw [alistFind_upd_isSome]
    exact hs s hsm

theorem Inv_setSess (st : ServerState) (id : Nat) (f : Sess → Sess) (h : Inv st) :
    Inv (setSess st id f) := by
  obtain ⟨hm, hn, hb, hs⟩ := h
  refine ⟨hm, hn, ⟨hb.1, hb.2.1, ?_⟩, ?_⟩
  · intro s hsm
    have hsm2 : s ∈ alistUpd id f st.sessions := hsm
    exact alistUpd_forall (a := id) (f := f) (P := fun s => s.1 < st.nextClientId)
      hb.2.2 (fun k v hkv he hv => hv) s hsm2
  · intro s hsm
    rcases mem_alistUpd2 hsm with ⟨q, hq, hd | hd⟩
    · rw [hd.2]
      exact hs q hq
    · rw [hd.2]
      exact hs q hq

/-- Dropping a connection that is no channel member keeps the invariant. -/
theorem Inv_erase_conn (st : ServerState) (clientId : Nat) (e : List (Nat × List Nat))
    (h : Inv st) (hnm : NoMem st clientId) :
    Inv { st with ecdh := e, registry := regRemove st.registry clientId,
                  sessions := alistErase clientId st.sessions } := by
  obtain ⟨hm, hn, hb, hs⟩ := h
  refine ⟨?_, hn, ⟨hb.1, ?_, ?_⟩, ?_⟩
  · intro p hp c hc
    have hne : c ≠ clientId := fun he => hnm p hp (he ▸ hc)
    show regChannel (regRemove st.registry clientId) c = some p.1
    rw [regChannel_remove_ne _ _ _ hne]
    exact hm p hp c hc
  · intro q hq
    exact hb.2.1 q (mem_alistErase hq).1
  · intro s hsm
    exact hb.2.2 s (mem_alistErase hsm).1
  · intro s hsm
    have h2 := mem_alistErase hsm
    show (alistFind (regRemove st.registry clientId) s.1).isSome = true
    unfold regRemove
    rw [alistFind_erase_ne _ _ _ h2.2]
    exact hs s h2.1

theorem Inv_cleanup (st : ServerState) (clientId : Nat) (h : Inv st) :
    Inv (cleanup_disconnect st clientId) := by
  unfold cleanup_disconnect
  dsimp only
  split
  · -- current channel present: leave, then maybe broadcast
    rename_i ch heq
    have hleave : Inv { st with channels := leaveCh st.channels clientId ch } :=
      Inv_leave st clientId ch h
    have hnm : NoMem { st with channels := leaveCh st.channels clientId ch } clientId :=
      noMem_after_leave st clientId ch heq h
    split
    · rename_i u hequ
      have hc := broadcast_user_left_sameCore
        { st with channels := leaveCh st.channels clientId ch } clientId ch u
      exact Inv_erase_conn _ clientId _ (Inv_of_sameCore hc hleave) (noMem_of_sameCore hc hnm)
    · exact Inv_erase_conn _ clientId _ hleave hnm
  · rename_i heq
    exact Inv_erase_conn _ clientId _ h (noMem_of_cur_none st clientId heq h)

/-! ### Invariant preservation of the JoinChannel handler -/

theorem join_leave_prev_facts (st : ServerState) (clientId : Nat) (h : Inv st) :
    Inv (join_leave_prev st clientId) ∧ NoMem (join_leave_prev st clientId) clientId ∧
    (join_leave_prev st clientId).registry = st.registry ∧
    (join_leave_prev st clientId).sessions = st.sessions ∧
    (join_leave_prev st clientId).nextClientId = st.nextClientId := by
  unfold join_leave_prev
  dsimp only
  split
  · rename_i ch heq
    have hleave : Inv { st with channels := leaveCh st.channels clientId ch } :=
      Inv_leave st clientId ch h
    have hnm : NoMem { st with channels := leaveCh st.channels clientId ch } clientId :=
      noMem_after_leave st clientId ch heq h
    split
    · rename_i u hequ
      have hc := broadcast_user_left_sameCore
        { st with channels := leaveCh st.channels clientId ch } clientId ch u
      exact ⟨Inv_of_sameCore hc hleave, noMem_of_sameCore hc hnm,
        hc.2.1, hc.2.2.1, hc.2.2.2⟩
    · exact ⟨hleave, hnm, rfl, rfl, rfl⟩
  · exact ⟨h, noMem_of_cur_none st clientId (by assumption) h, rfl, rfl, rfl⟩

theorem join_ensure_facts (st : ServerState) (clientId : Nat) (name : String)
    (password : Option String) (h : Inv st) (hnm : NoMem st clientId) :
    Inv (join_ensure st clientId name password).2 ∧
    NoMem (join_ensure st clientId name password).2 clientId ∧
    (join_ensure st clientId name password).2.registry = st.registry ∧
    (join_ensure st clientId name password).2.sessions = st.sessions ∧
    (join_ensure st clientId name password).2.nextClientId = st.nextClientId ∧
    (alistFind (join_ensure st clientId name password).2.channels.channelsByName name).isSome
      = true := by
  unfold join_ensure
  by_cases hex : (get_channel_id st.channels name).isSome
  · rw [if_pos hex]
    refine ⟨h, hnm, rfl, rfl, rfl, ?_⟩
    unfold get_channel_id at hex
    cases hfind : alistFind st.channels.channelsByName name with
    | none => rw [hfind] at hex; cases hex
    | some ch => rfl
  · rw [if_neg hex]
    dsimp only
    have hfind : alistFind st.channels.channelsByName name = none := by
      unfold get_channel_id at hex
      cases hfind : alistFind st.channels.channelsByName name with
      | none => rfl
      | some ch => rw [hfind] at hex; exact absurd rfl hex
    unfold ensure_channel_ret
    rw [hfind]
    dsimp only
    have hinv2 : Inv { st with channels := ensure_channel st.channels name password.isNone password } :=
      Inv_ensure st name password.isNone password h
    have hnm2 : NoMem { st with channels := ensure_channel st.channels name password.isNone password } clientId := by
      intro p hp hc
      unfold ensure_channel at hp
      rw [hfind] at hp
      simp only [Option.isSome_none, Bool.false_eq_true, if_false] at hp
      rcases mem_alistInsert hp with hp | hp
      · rw [hp] at hc
        cases hc
      · exact hnm p hp.1 hc
    refine ⟨hinv2, hnm2, rfl, rfl, rfl, ?_⟩
    unfold ensure_channel
    rw [hfind]
    simp only [Option.isSome_none, Bool.false_eq_true, if_false]
    rw [alistFind_insert_self]
    rfl

theorem Inv_join_success_state (st : ServerState) (clientId : Nat) (name : String)
    (channelId : Nat) (cib : ChannelInfo)
    (h : Inv st) (hnm : NoMem st clientId)
    (hreg : (alistFind st.registry clientId).isSome = true)
    (hlt : clientId < st.nextClientId)
    (hcib : cib.name = name) :
    Inv (join_success { st with channels := { st.channels with channelsByName := alistUpd name (fun c => { c with members := memberInsert clientId c.members }) st.channels.channelsByName } } clientId name channelId cib) := by
  obtain ⟨hm, hn, hb, hs⟩ := h
  have hcore : ∀ ci : ChannelInfo, ci.name = name →
      Inv { st with
        channels := { st.channels with channelsByName := alistUpd name (fun c => { c with members := memberInsert clientId c.members }) st.channels.channelsByName },
        registry := regSetChannel st.registry clientId (some ci.name) } := by
    intro ci hci
    rw [hci]
    refine ⟨?_, ?_, ⟨?_, ?_, hb.2.2⟩, ?_⟩
    · intro p hp c hc
      rcases mem_alistUpd2 hp with ⟨q, hq, hd | hd⟩
      · rw [hd.2] at hc ⊢
        have hne : c ≠ clientId := fun he => hnm q hq (he ▸ hc)
        show regChannel (regSetChannel st.registry clientId (some name)) c = some q.1
        rw [regChannel_setChannel_ne _ _ _ _ hne]
        exact hm q hq c hc
      · rw [hd.2] at hc ⊢
        simp only at hc
        rcases mem_memberInsert hc with hcc | hcc
        · subst hcc
          show regChannel (regSetChannel st.registry c (some name)) c = some q.1
          rw [regChannel_setChannel_self _ _ _ hreg, hd.1]
        · have hne : c ≠ clientId := fun he => hnm q hq (he ▸ hcc)
          show regChannel (regSetChannel st.registry clientId (some name)) c = some q.1
          rw [regChannel_setChannel_ne _ _ _ _ hne]
          exact hm q hq c hcc
    · intro p hp
      rcases mem_alistUpd2 hp with ⟨q, hq, hd | hd⟩
      · rw [hd.2]
        exact hn q hq
      · rw [hd.2]
        show q.2.name = q.1
        exact hn q hq
    · intro p hp c hc
      rcases mem_alistUpd2 hp with ⟨q, hq, hd | hd⟩
      · rw [hd.2] at hc
        exact hb.1 q hq c hc
      · rw [hd.2] at hc
        simp only at hc
        rcases mem_memberInsert hc with hcc | hcc
        · subst hcc
          exact hlt
        · exact hb.1 q hq c hcc
    · intro q hq
      rcases mem_alistUpd2 hq with ⟨q0, hq0, hd | hd⟩
      · rw [hd.2]
        exact hb.2.1 q0 hq0
      · rw [hd.2]
        exact hb.2.1 q0 hq0
    · intro s hsm
      show (alistFind (regSetChannel st.registry clientId (some name)) s.1).isSome = true
      unfold regSetChannel
      rw [alistFind_upd_isSome]
      exact hs s hsm
  unfold join_success
  dsimp only
  split
  · rename_i realId heq
    refine Inv_of_sameCore ?_
      (hcore ⟨realId, name, cib.isPublic, get_channel_type st.admin channelId,
        some (get_role st.admin channelId clientId)⟩ rfl)
    exact sameCore_trans (sendTo_sameCore _ _ _)
      (sameCore_trans (sendTo_sameCore _ _ _) (broadcast_user_joined_sameCore _ _ _))
  · refine Inv_of_sameCore ?_ (hcore cib hcib)
    exact sameCore_trans (sendTo_sameCore _ _ _)
      (sameCore_trans (sendTo_sameCore _ _ _) (broadcast_user_joined_sameCore _ _ _))

theorem Inv_join_finish (st : ServerState) (clientId : Nat) (name : String)
    (password : Option String) (channelId : Nat)
    (h : Inv st) (hnm : NoMem st clientId)
    (hreg : (alistFind st.registry clientId).isSome = true)
    (hlt : clientId < st.nextClientId)
    (hex : (alistFind st.channels.channelsByName name).isSome = true) :
    Inv (match (joinCh st.channels clientId name password).1 with
         | Except.ok cib =>
           join_success { st with channels := (joinCh st.channels clientId name password).2 }
             clientId name channelId cib
         | Except.error r =>
           sendTo { st with channels := (joinCh st.channels clientId name password).2 }
             clientId (ServerMsg.joinFailure name r)) := by
  unfold joinCh
  dsimp only
  rw [if_pos hex]
  obtain ⟨ch, hfind⟩ := Option.isSome_iff_exists.mp hex
  rw [hfind]
  dsimp only
  have hchname : ch.name = name := h.2.1 (name, ch) (alistFind_mem hfind)
  by_cases hpw : (match ch.passwordHash with
      | some hash => verify_password (password.getD "") hash
      | none => true) = true
  · rw [if_pos hpw]
    exact Inv_join_success_state st clientId name channelId ch.info h hnm hreg hlt hchname
  · rw [if_neg hpw]
    exact Inv_of_sameCore (sendTo_sameCore _ _ _) h

theorem Inv_handle_join (now : Int) (st : ServerState) (clientId : Nat) (name : String)
    (password : Option String) (h : Inv st)
    (hsreg : (alistFind st.sessions clientId).isSome = true) :
    Inv (handle_join_channel now st clientId name password) := by
  obtain ⟨hA, hAnm, hAreg, hAsess, hAnext⟩ := join_leave_prev_facts st clientId h
  obtain ⟨hB, hBnm, hBreg, hBsess, hBnext, hBex⟩ :=
    join_ensure_facts (join_leave_prev st clientId) clientId name password hA hAnm
  unfold handle_join_channel
  dsimp only
  obtain ⟨sess, hsfind⟩ := Option.isSome_iff_exists.mp hsreg
  have hmemsess : (clientId, sess) ∈ st.sessions := alistFind_mem hsfind
  have hRreg : (alistFind (join_ensure (join_leave_prev st clientId) clientId name
      password).2.registry clientId).isSome = true := by
    rw [hBreg, hAreg]
    exact h.2.2.2 (clientId, sess) hmemsess
  have hlt : clientId < (join_ensure (join_leave_prev st clientId) clientId name
      password).2.nextClientId := by
    rw [hBnext, hAnext]
    exact h.2.2.1.2.2 (clientId, sess) hmemsess
  split
  · exact Inv_of_sameCore (sendTo_sameCore _ _ _) hB
  · exact Inv_join_finish _ clientId name password _ hB hBnm hRreg hlt hBex

/-! ### Invariant preservation of the remaining handlers -/

theorem Inv_foldl {α : Type} (f : ServerState → α → ServerState)
    (hf : ∀ s x, Inv s → Inv (f s x)) :
    ∀ (l : List α) (st : ServerState), Inv st → Inv (l.foldl f st) := by
  intro l
  induction l with
  | nil => intro st h; exact h
  | cons x t ih =>
    intro st h
    exact ih (f st x) (hf st x h)

theorem Inv_kickloop_body (channel text : String) :
    ∀ (s : ServerState) (tcid : Nat), Inv s →
      Inv (if regChannel s.registry tcid = some channel then
             sendTo { s with channels := leaveCh s.channels tcid channel } tcid
               (ServerMsg.systemMessage text)
           else s) := by
  intro s tcid h
  split
  · exact Inv_of_sameCore (sendTo_sameCore _ _ _) (Inv_leave s tcid channel h)
  · exact h

theorem Inv_handle_ban (now : Int) (st : ServerState) (clientId : Nat) (channel : String)
    (username : String) (durationSeconds : Option Nat) (reason : Option String)
    (h : Inv st) :
    Inv (handle_ban_user now st clientId channel username durationSeconds reason) := by
  unfold handle_ban_user
  split
  · exact Inv_of_sameCore (sendTo_sameCore _ _ _) h
  · split
    · split
      · exact Inv_of_sameCore (sendTo_sameCore _ _ _) h
      · dsimp only
        refine Inv_of_sameCore (sendMany_sameCore _ _ _) ?_
        refine Inv_foldl _ (Inv_kickloop_body channel _) _ _ ?_
        exact Inv_of_sameCore ⟨rfl, rfl, rfl, rfl⟩ (Inv_of_sameCore ⟨rfl, rfl, rfl, rfl⟩ h)
    · exact Inv_of_sameCore (sendTo_sameCore _ _ _) h

theorem Inv_handle_kick (now : Int) (st : ServerState) (clientId : Nat) (channel : String)
    (username : String) (reason : Option String) (h : Inv st) :
    Inv (handle_kick_user now st clientId channel username reason) := by
  unfold handle_kick_user
  split
  · exact Inv_of_sameCore (sendTo_sameCore _ _ _) h
  · split
    · split
      · exact Inv_of_sameCore (sendTo_sameCore _ _ _) h
      · dsimp only
        refine Inv_of_sameCore (sendMany_sameCore _ _ _) ?_
        refine Inv_foldl _ (Inv_kickloop_body channel _) _ _ ?_
        exact Inv_of_sameCore ⟨rfl, rfl, rfl, rfl⟩ h
    · exact Inv_of_sameCore (sendTo_sameCore _ _ _) h

theorem Inv_delete_message_state (st : ServerState) (channel : String) (messageId : Nat)
    (h : Inv st) :
    Inv { st with channels := (delete_message st.channels channel messageId).2 } := by
  unfold delete_message
  split
  · exact h
  · exact Inv_upd_messages st channel
      (fun c => c.messages.filter (fun m => decide (m.id ≠ messageId))) h

theorem Inv_handle_delete_message (now : Int) (st : ServerState) (clientId : Nat)
    (channel : String) (messageId : Nat) (h : Inv st) :
    Inv (handle_delete_message now st clientId channel messageId) := by
  unfold handle_delete_message
  split
  · exact Inv_of_sameCore (sendTo_sameCore _ _ _) h
  · split
    · dsimp only
      split
      · refine Inv_of_sameCore (sendMany_sameCore _ _ _) ?_
        exact Inv_of_sameCore ⟨rfl, rfl, rfl, rfl⟩
          (Inv_delete_message_state st channel messageId h)
      · exact Inv_of_sameCore (sendTo_sameCore _ _ _)
          (Inv_delete_message_state st channel messageId h)
    · exact Inv_of_sameCore (sendTo_sameCore _ _ _) h

theorem Inv_add_message_state (st : ServerState) (channel : String) (msg : ChatMessage)
    (now : Int) (h : Inv st) :
    Inv { st with channels := (add_message st.channels channel msg now).2 } := by
  unfold add_message
  split
  · exact h
  · exact Inv_upd_messages st channel
      (fun c => if (c.messages ++ [{ msg with id := st.channels.nextMessageId, timestamp := now }]).length > 100 then (c.messages ++ [{ msg with id := st.channels.nextMessageId, timestamp := now }]).drop ((c.messages ++ [{ msg with id := st.channels.nextMessageId, timestamp := now }]).length - 100) else c.messages ++ [{ msg with id := st.channels.nextMessageId, timestamp := now }]) h

theorem Inv_handle_send (now : Int) (st : ServerState) (clientId : Nat) (channel : String)
    (content : List Nat) (metadata : List (String × String)) (h : Inv st) :
    Inv (handle_send_message now st clientId channel content metadata) := by
  unfold handle_send_message
  dsimp only
  split
  · exact Inv_of_sameCore (sendTo_sameCore _ _ _) h
  · split
    · exact Inv_of_sameCore (sendTo_sameCore _ _ _) h
    · split
      · split
        · exact Inv_of_sameCore (broadcast_message_sameCore _ _ _)
            (Inv_add_message_state st channel _ now h)
        · exact Inv_of_sameCore (sendTo_sameCore _ _ _)
            (Inv_add_message_state st channel _ now h)
      · exact Inv_of_sameCore (sendTo_sameCore _ _ _) h

theorem Inv_handle_promote (now : Int) (st : ServerState) (clientId : Nat)
    (channel username : String) (role : Role) (h : Inv st) :
    Inv (handle_promote_user now st clientId channel username role) := by
  unfold handle_promote_user
  split
  · exact Inv_of_sameCore (sendTo_sameCore _ _ _) h
  · split
    · split
      · exact Inv_of_sameCore (sendTo_sameCore _ _ _) h
      · refine Inv_of_sameCore (sendMany_sameCore _ _ _) ?_
        exact Inv_of_sameCore ⟨rfl, rfl, rfl, rfl⟩ (Inv_of_sameCore ⟨rfl, rfl, rfl, rfl⟩ h)
    · exact Inv_of_sameCore (sendTo_sameCore _ _ _) h

theorem Inv_handle_demote (now : Int) (st : ServerState) (clientId : Nat)
    (channel username : String) (h : Inv st) :
    Inv (handle_demote_user now st clientId channel username) := by
  unfold handle_demote_user
  split
  · exact Inv_of_sameCore (sendTo_sameCore _ _ _) h
  · split
    · split
      · exact Inv_of_sameCore (sendTo_sameCore _ _ _) h
      · refine Inv_of_sameCore (sendMany_sameCore _ _ _) ?_
        exact Inv_of_sameCore ⟨rfl, rfl, rfl, rfl⟩ (Inv_of_sameCore ⟨rfl, rfl, rfl, rfl⟩ h)
    · exact Inv_of_sameCore (sendTo_sameCore _ _ _) h

theorem Inv_handle_unban (now : Int) (st : ServerState) (clientId : Nat)
    (channel username : String) (h : Inv st) :
    Inv (handle_unban_user now st clientId channel username) := by
  unfold handle_unban_user
  split
  · exact Inv_of_sameCore (sendTo_sameCore _ _ _) h
  · split
    · split
      · exact Inv_of_sameCore (sendTo_sameCore _ _ _) h
      · dsimp only
        split
        · refine Inv_of_sameCore (sendMany_sameCore _ _ _) ?_
          exact Inv_of_sameCore ⟨rfl, rfl, rfl, rfl⟩ (Inv_of_sameCore ⟨rfl, rfl, rfl, rfl⟩ h)
        · exact Inv_of_sameCore (sendTo_sameCore _ _ _)
            (Inv_of_sameCore ⟨rfl, rfl, rfl, rfl⟩ h)
    · exact Inv_of_sameCore (sendTo_sameCore _ _ _) h

theorem Inv_handle_list_admins (st : ServerState) (clientId : Nat) (channel : String)
    (h : Inv st) : Inv (handle_list_admins st clientId channel) := by
  unfold handle_list_admins
  split
  · exact Inv_of_sameCore (sendTo_sameCore _ _ _) h
  · exact Inv_of_sameCore (sendTo_sameCore _ _ _) h

theorem Inv_handle_list_bans (now : Int) (st : ServerState) (clientId : Nat)
    (channel : String) (h : Inv st) : Inv (handle_list_bans now st clientId channel) := by
  unfold handle_list_bans
  split
  · exact Inv_of_sameCore (sendTo_sameCore _ _ _) h
  · split
    · exact Inv_of_sameCore (sendTo_sameCore _ _ _) h
    · exact Inv_of_sameCore (sendTo_sameCore _ _ _) h

theorem Inv_handle_view_logs (st : ServerState) (clientId : Nat) (channel : String)
    (limit : Nat) (h : Inv st) : Inv (handle_view_logs st clientId channel limit) := by
  unfold handle_view_logs
  split
  · exact Inv_of_sameCore (sendTo_sameCore _ _ _) h
  · split
    · exact Inv_of_sameCore (sendTo_sameCore _ _ _) h
    · exact Inv_of_sameCore (sendTo_sameCore _ _ _) h

theorem Inv_handle_change_type (now : Int) (st : ServerState) (clientId : Nat)
    (channel : String) (channelType : ChannelType) (h : Inv st) :
    Inv (handle_change_channel_type now st clientId channel channelType) := by
  unfold handle_change_channel_type
  split
  · exact Inv_of_sameCore (sendTo_sameCore _ _ _) h
  · split
    · refine Inv_of_sameCore (sendMany_sameCore _ _ _) ?_
      exact Inv_of_sameCore ⟨rfl, rfl, rfl, rfl⟩ (Inv_of_sameCore ⟨rfl, rfl, rfl, rfl⟩ h)
    · exact Inv_of_sameCore (sendTo_sameCore _ _ _) h

/-- View of the registry rewrite performed by the DeleteChannel member
loop: current channels are either untouched or cleared from the deleted
channel, and registry keys are unchanged. -/
def DelView (channel : String) (st st2 : ServerState) : Prop :=
  st2.channels = st.channels ∧ st2.sessions = st.sessions ∧
  st2.nextClientId = st.nextClientId ∧
  (∀ c, regChannel st2.registry c = regChannel st.registry c ∨
      (regChannel st.registry c = some channel ∧ regChannel st2.registry c = none)) ∧
  (∀ c, (alistFind st2.registry c).isSome = (alistFind st.registry c).isSome) ∧
  (∀ q ∈ st2.registry, ∃ q0 ∈ st.registry, q.1 = q0.1)

theorem delView_refl (channel : String) (st : ServerState) : DelView channel st st :=
  ⟨rfl, rfl, rfl, fun c => Or.inl rfl, fun c => rfl, fun q hq => ⟨q, hq, rfl⟩⟩

theorem delView_trans {channel : String} {s1 s2 s3 : ServerState}
    (h1 : DelView channel s1 s2) (h2 : DelView channel s2 s3) :
    DelView channel s1 s3 := by
  obtain ⟨hc1, hs1, hn1, hcur1, hsome1, hk1⟩ := h1
  obtain ⟨hc2, hs2, hn2, hcur2, hsome2, hk2⟩ := h2
  refine ⟨hc2.trans hc1, hs2.trans hs1, hn2.trans hn1, ?_, ?_, ?_⟩
  · intro c
    rcases hcur2 c with h32 | h32
    · rcases hcur1 c with h21 | h21
      · exact Or.inl (h32.trans h21)
      · exact Or.inr ⟨h21.1, h32.trans h21.2⟩
    · rcases hcur1 c with h21 | h21
      · exact Or.inr ⟨h21 ▸ h32.1, h32.2⟩
      · rw [h21.2] at h32
        cases h32.1
  · intro c
    exact (hsome2 c).trans (hsome1 c)
  · intro q hq
    obtain ⟨q1, hq1, he1⟩ := hk2 q hq
    obtain ⟨q0, hq0, he0⟩ := hk1 q1 hq1
    exact ⟨q0, hq0, he1.trans he0⟩

theorem delView_step (channel : String) (st : ServerState) (memberId : Nat) :
    DelView channel st
      (if regChannel st.registry memberId = some channel then
         { st with registry := regSetChannel st.registry memberId none }
       else st) := by
  split
  · rename_i hcond
    refine ⟨rfl, rfl, rfl, ?_, ?_, ?_⟩
    · intro c
      by_cases hc : c = memberId
      · subst hc
        cases hfind : alistFind st.registry c with
        | none =>
          left
          show regChannel (regSetChannel st.registry c none) c = regChannel st.registry c
          rw [regChannel_setChannel_none _ _ _ hfind]
          unfold regChannel
          rw [hfind]
          rfl
        | some hndl =>
          right
          refine ⟨hcond, ?_⟩
          show regChannel (regSetChannel st.registry c none) c = none
          rw [regChannel_setChannel_self _ _ _ (by rw [hfind]; rfl)]
      · left
        exact regChannel_setChannel_ne _ _ _ _ hc
    · intro c
      show (alistFind (regSetChannel st.registry memberId none) c).isSome = _
      unfold regSetChannel
      rw [alistFind_upd_isSome]
    · intro q hq
      rcases mem_alistUpd2 hq with ⟨q0, hq0, hd | hd⟩
      · exact ⟨q0, hq0, by rw [hd.2]⟩
      · exact ⟨q0, hq0, by rw [hd.2]⟩
  · exact delView_refl channel st

theorem delchan_loop (channel : String) (l : List Nat) :
    ∀ st : ServerState, DelView channel st
      (l.foldl (fun s memberId =>
          if regChannel s.registry memberId = some channel then
            { s with registry := regSetChannel s.registry memberId none }
          else s) st) := by
  induction l with
  | nil => intro st; exact delView_refl channel st
  | cons x t ih =>
    intro st
    exact delView_trans (delView_step channel st x) (ih _)

theorem Inv_handle_delete_channel (st : ServerState) (clientId : Nat) (channel : String)
    (h : Inv st) : Inv (handle_delete_channel st clientId channel) := by
  unfold handle_delete_channel
  split
  · exact Inv_of_sameCore (sendTo_sameCore _ _ _) h
  · split
    · dsimp only
      have hs1 := sendMany_sameCore (membersOf st.channels channel)
        (ServerMsg.channelDeleted channel (adminUsernameOf st clientId)) st
      have hInv1 : Inv (sendMany st (membersOf st.channels channel)
          (ServerMsg.channelDeleted channel (adminUsernameOf st clientId))) :=
        Inv_of_sameCore hs1 h
      have hdv := delchan_loop channel (membersOf st.channels channel)
        (sendMany st (membersOf st.channels channel)
          (ServerMsg.channelDeleted channel (adminUsernameOf st clientId)))
      obtain ⟨hdc, hds, hdn, hdcur, hdsome, hdk⟩ := hdv
      obtain ⟨hm1, hn1, hb1, hse1⟩ := hInv1
      refine ⟨?_, ?_, ⟨?_, ?_, ?_⟩, ?_⟩
      · intro p hp c hc
        have hp2 := mem_alistErase hp
        rw [hdc] at hp2
        have hcur := hm1 p hp2.1 c hc
        rcases hdcur c with hd | hd
        · rw [hd]
          exact hcur
        · rw [hcur] at hd
          exact absurd (Option.some_inj.mp hd.1) hp2.2
      · intro p hp
        have hp2 := mem_alistErase hp
        rw [hdc] at hp2
        exact hn1 p hp2.1
      · intro p hp c hc
        have hp2 := mem_alistErase hp
        rw [hdc] at hp2
        have := hb1.1 p hp2.1 c hc
        rw [hdn]
        exact this
      · intro q hq
        obtain ⟨q0, hq0, he⟩ := hdk q hq
        rw [hdn, he]
        exact hb1.2.1 q0 hq0
      · intro s hsm
        rw [hds] at hsm
        rw [hdn]
        exact hb1.2.2 s hsm
      · intro s hsm
        rw [hds] at hsm
        rw [hdsome s.1]
        exact hse1 s hsm
    · exact Inv_of_sameCore (sendTo_sameCore _ _ _) h

theorem Inv_connect (st : ServerState) (h : Inv st) : Inv (handle_connect st) := by
  obtain ⟨hm, hn, hb, hs⟩ := h
  unfold handle_connect
  dsimp only
  refine Inv_of_sameCore (sendTo_sameCore _ _ _) ?_
  refine ⟨?_, hn, ⟨?_, ?_, ?_⟩, ?_⟩
  · intro p hp c hc
    have hne : c ≠ st.nextClientId := Nat.ne_of_lt (hb.1 p hp c hc)
    show regChannel (regRegister st.registry st.nextClientId) c = some p.1
    rw [regChannel_register_ne _ _ _ hne]
    exact hm p hp c hc
  · intro p hp c hc
    exact Nat.lt_succ_of_lt (hb.1 p hp c hc)
  · intro q hq
    rcases mem_alistInsert hq with hq | hq
    · rw [hq]
      exact Nat.lt_succ_self _
    · exact Nat.lt_succ_of_lt (hb.2.1 q hq.1)
  · intro s hsm
    rcases mem_alistInsert hsm with hsm | hsm
    · rw [hsm]
      exact Nat.lt_succ_self _
    · exact Nat.lt_succ_of_lt (hb.2.2 s hsm.1)
  · intro s hsm
    show (alistFind (regRegister st.registry st.nextClientId) s.1).isSome = true
    unfold regRegister
    rcases mem_alistInsert hsm with hsm | hsm
    · rw [hsm]
      rw [alistFind_insert_self]
      rfl
    · have hne : s.1 ≠ st.nextClientId := Nat.ne_of_lt (hb.2.2 s hsm.1)
      rw [alistFind_insert_ne _ _ _ _ hne]
      exact hs s hsm.1

theorem Inv_handle_msg (now : Int) (nanos : Nat) (st : ServerState) (clientId : Nat)
    (msg : ClientMsg) (h : Inv st) : Inv (handle_msg now nanos st clientId msg) := by
  unfold handle_msg
  split
  · exact h
  · rename_i sess hsfind
    have hsreg : (alistFind st.sessions clientId).isSome = true := by
      rw [hsfind]
      rfl
    cases msg with
    | connect => exact h
    | auth key =>
      dsimp only
      split
      · exact Inv_of_sameCore (sendTo_sameCore _ _ _) (Inv_setSess st clientId _ h)
      · exact Inv_cleanup _ clientId (Inv_of_sameCore (sendTo_sameCore _ _ _) h)
    | ecdhPublicKey publicKey =>
      dsimp only
      split
      · split
        · refine Inv_of_sameCore
            (sameCore_trans (sendTo_sameCore _ _ _) (sendTo_sameCore _ _ _)) ?_
          exact Inv_setSess _ clientId _ (Inv_of_sameCore ⟨rfl, rfl, rfl, rfl⟩ h)
        · exact Inv_of_sameCore (sendTo_sameCore _ _ _)
            (Inv_of_sameCore ⟨rfl, rfl, rfl, rfl⟩ h)
      · exact Inv_of_sameCore (sendTo_sameCore _ _ _) h
    | registerUser username =>
      dsimp only
      split
      · split
        · refine Inv_of_sameCore
            (sameCore_trans (sendTo_sameCore _ _ _) (send_channel_list_sameCore _ _)) ?_
          exact Inv_setSess _ clientId _
            (Inv_setUser _ clientId _ (Inv_of_sameCore ⟨rfl, rfl, rfl, rfl⟩ h))
        · exact Inv_of_sameCore (sendTo_sameCore _ _ _)
            (Inv_of_sameCore ⟨rfl, rfl, rfl, rfl⟩ h)
      · exact Inv_of_sameCore (sendTo_sameCore _ _ _) h
    | login username password =>
      dsimp only
      split
      · split
        · refine Inv_of_sameCore
            (sameCore_trans (sendTo_sameCore _ _ _) (send_channel_list_sameCore _ _)) ?_
          exact Inv_setSess _ clientId _ (Inv_setUser _ clientId _ h)
        · exact Inv_of_sameCore (sendTo_sameCore _ _ _) h
      · exact Inv_of_sameCore (sendTo_sameCore _ _ _) h
    | listChannels =>
      dsimp only
      split
      · exact Inv_of_sameCore (send_channel_list_sameCore _ _) h
      · exact Inv_of_sameCore (sendTo_sameCore _ _ _) h
    | joinChannel name password =>
      dsimp only
      split
      · exact Inv_handle_join now st clientId name password h hsreg
      · exact Inv_of_sameCore (sendTo_sameCore _ _ _) h
    | sendMessage channel content metadata =>
      dsimp only
      split
      · exact Inv_handle_send now st clientId channel content metadata h
      · exact Inv_of_sameCore (sendTo_sameCore _ _ _) h
    | getHistory channel limit =>
      dsimp only
      split
      · exact Inv_of_sameCore (sendTo_sameCore _ _ _) h
      · exact Inv_of_sameCore (sendTo_sameCore _ _ _) h
    | deleteMessage channel messageId =>
      dsimp only
      split
      · exact Inv_handle_delete_message now st clientId channel messageId h
      · exact Inv_of_sameCore (sendTo_sameCore _ _ _) h
    | promoteUser channel username role =>
      dsimp only
      split
      · exact Inv_handle_promote now st clientId channel username role h
      · exact Inv_of_sameCore (sendTo_sameCore _ _ _) h
    | demoteUser channel username =>
      dsimp only
      split
      · exact Inv_handle_demote now st clientId channel username h
      · exact Inv_of_sameCore (sendTo_sameCore _ _ _) h
    | banUser channel username durationSeconds reason =>
      dsimp only
      split
      · exact Inv_handle_ban now st clientId channel username durationSeconds reason h
      · exact Inv_of_sameCore (sendTo_sameCore _ _ _) h
    | unbanUser channel username =>
      dsimp only
      split
      · exact Inv_handle_unban now st clientId channel username h
      · exact Inv_of_sameCore (sendTo_sameCore _ _ _) h
    | kickUser channel username reason =>
      dsimp only
      split
      · exact Inv_handle_kick now st clientId channel username reason h
      · exact Inv_of_sameCore (sendTo_sameCore _ _ _) h
    | listAdmins channel =>
      dsimp only
      split
      · exact Inv_handle_list_admins st clientId channel h
      · exact Inv_of_sameCore (sendTo_sameCore _ _ _) h
    | listBans channel =>
      dsimp only
      split
      · exact Inv_handle_list_bans now st clientId channel h
      · exact Inv_of_sameCore (sendTo_sameCore _ _ _) h
    | viewLogs channel limit =>
      dsimp only
      split
      · exact Inv_handle_view_logs st clientId channel limit h
      · exact Inv_of_sameCore (sendTo_sameCore _ _ _) h
    | changeChannelType channel channelType =>
      dsimp only
      split
      · exact Inv_handle_change_type now st clientId channel channelType h
      · exact Inv_of_sameCore (sendTo_sameCore _ _ _) h
    | deleteChannel channel =>
      dsimp only
      split
      · exact Inv_handle_delete_channel st clientId channel h
      · exact Inv_of_sameCore (sendTo_sameCore _ _ _) h
    | disconnectMsg => exact Inv_cleanup st clientId h

theorem Inv_step (st : ServerState) (e : Event) (h : Inv st) : Inv (step st e) := by
  cases e with
  | connectEv => exact Inv_connect st h
  | msgEv clientId now nanos msg => exact Inv_handle_msg now nanos st clientId msg h
  | disconnectEv clientId => exact Inv_cleanup st clientId h
  | banCleanupEv now => exact Inv_of_sameCore ⟨rfl, rfl, rfl, rfl⟩ h

theorem Inv_initState (specialKey : String) : Inv (initState specialKey) := by
  have hentries : (initState specialKey).channels.channelsByName =
      [("general", ⟨1, "general", true, none, [], []⟩)] := rfl
  refine ⟨?_, ?_, ⟨?_, ?_, ?_⟩, ?_⟩
  · intro p hp c hc
    rw [hentries] at hp
    rw [List.mem_singleton.mp hp] at hc
    cases hc
  · intro p hp
    rw [hentries] at hp
    rw [List.mem_singleton.mp hp]
  · intro p hp c hc
    rw [hentries] at hp
    rw [List.mem_singleton.mp hp] at hc
    cases hc
  · intro q hq
    cases hq
  · intro s hsm
    cases hsm
  · intro s hsm
    cases hsm

theorem Inv_of_reach (st : ServerState) (h : ReachSrv st) : Inv st := by
  induction h with
  | base specialKey => exact Inv_initState specialKey
  | stepR st e hr ih => exact Inv_step st e ih

/-- Trace refuting the backward direction of the membership/current-channel
biconditional: connection 1 joins `"general"`, then attempts `"secret"` with
a wrong password; the `JoinChannel` handler removes it from `"general"`'s
members before validating, answers `JoinFailure`, and never rewrites
`current_channel`, which still names `"general"`. -/
def c2Events : List Event :=
  [Event.connectEv,
   Event.connectEv,
   Event.msgEv 1 0 0 (ClientMsg.auth "k"),
   Event.msgEv 1 0 0 (ClientMsg.registerUser "bob"),
   Event.msgEv 2 0 0 (ClientMsg.auth "k"),
   Event.msgEv 2 0 0 (ClientMsg.registerUser "alice"),
   Event.msgEv 2 0 0 (ClientMsg.joinChannel "secret" (some "pw")),
   Event.msgEv 1 0 0 (ClientMsg.joinChannel "general" none),
   Event.msgEv 1 0 0 (ClientMsg.joinChannel "secret" (some "wrong"))]

/-- Claim C2 counterexample: in the reachable state after `c2Events`, the
registry's `current_channel` for connection 1 is `"general"`, the channel
`"general"` exists, yet connection 1 is not in its member set — the join of
`"secret"` failed with `JoinFailure "invalid channel password"` after the
handler had already removed the member. So `current_channel = Ch.name` does
not imply membership. -/
theorem c2_counterexample :
    regChannel (runEvents "k" c2Events).registry 1 = some "general" ∧
    "general" ∈ (runEvents "k" c2Events).channels.channelsByName.map Prod.fst ∧
    1 ∉ membersOf (runEvents "k" c2Events).channels "general" ∧
    ServerMsg.joinFailure "secret" "invalid channel password" ∈
      outboxOf (runEvents "k" c2Events) 1 := by
  decide

/-- Claim C2 (corrected): only the forward direction of the biconditional
holds in every reachable state — a connection in a channel's member set has
that channel's name as its registry `current_channel`. The converse fails
after a `JoinChannel` answered with `JoinFailure` (ban or wrong password)
and after ban/kick-forced removal, where `current_channel` still names the
channel. -/
theorem c2_member_implies_current (st : ServerState) (h : ReachSrv st) :
    ∀ p ∈ st.channels.channelsByName, ∀ c ∈ p.2.members,
      regChannel st.registry c = some p.1 :=
  (Inv_of_reach st h).1

/-- Reachable witness trace for the corrected C2 theorem: one connection
registers and joins `"general"`. -/
def c2WitnessEvents : List Event :=
  [Event.connectEv,
   Event.msgEv 1 0 0 (ClientMsg.auth "k"),
   Event.msgEv 1 0 0 (ClientMsg.registerUser "alice"),
   Event.msgEv 1 0 0 (ClientMsg.joinChannel "general" none)]

/-- Witness for the corrected C2 theorem at the concrete reachable state
after `c2WitnessEvents`: connection 1 is a member of `"general"` and its
`current_channel` is indeed `"general"`. -/
theorem c2_member_implies_current_witness :
    regChannel (runEvents "k" c2WitnessEvents).registry 1 = some "general" :=
  c2_member_implies_current (runEvents "k" c2WitnessEvents)
    (ReachSrv.stepR _ (Event.msgEv 1 0 0 (ClientMsg.joinChannel "general" none))
      (ReachSrv.stepR _ (Event.msgEv 1 0 0 (ClientMsg.registerUser "alice"))
        (ReachSrv.stepR _ (Event.msgEv 1 0 0 (ClientMsg.auth "k"))
          (ReachSrv.stepR _ Event.connectEv (ReachSrv.base "k")))))
    ("general", ⟨1, "general", true, none, [], [1]⟩) (by decide) 1 (by decide)

end DarkRelay
